import Mathlib

/-!
Shallow embedding of `src/checkers/board.py` (class `Board`) of the checkers engine,
together with theorems checking the natural-language specification against it.

The grid is embedded as a total function `Int → Int → Cell`; every mutation of the
Python list-of-lists is a point update.  The traversal procedures `_traverse_left`
and `_traverse_right` are embedded with an explicit iteration count for the Python
`for r in range(start, stop, step)` loop and an explicit fuel for the mutual
capture-chain recursion; a grid read outside `[0,8) × [0,8)` (undefined behaviour
in the source: an `IndexError`, or Python's negative-index wrap-around) and fuel
exhaustion are both modelled as `none`.  Theorems below show that on an on-board
piece the result is always `some`, so neither escape hatch is ever taken on the
executions the specification talks about.
-/

namespace Checkers

/-- Modelled from the spec: `config.py` is not under `src/`; §2–§3 of the spec fix an
8×8 board and two enumerated player colors `PLAYER_COLOR_TOP` (rows 0–2 at start,
counted by `white_left`/`white_kings`) and `PLAYER_COLOR_BOTTOM` (rows 5–7 at start,
counted by `red_left`/`red_kings`). -/
inductive Color where
  | top : Color
  | bottom : Color
deriving DecidableEq, Repr

/-- Modelled from the spec: `config.py` is not under `src/`; the board has 8 rows. -/
def ROWS : Int := 8

/-- Modelled from the spec: `config.py` is not under `src/`; the board has 8 columns. -/
def COLS : Int := 8

def PLAYER_COLOR_TOP : Color := Color.top

def PLAYER_COLOR_BOTTOM : Color := Color.bottom

/-- Modelled from the spec: `piece.py` is not under `src/`; §3 gives a piece's
attributes `row`, `col`, `color`, `king` (the pixel-center attribute is
presentation-only and excluded from the core by §3). -/
structure Piece where
  row : Int
  col : Int
  color : Color
  king : Bool
deriving DecidableEq, Repr

/-- Modelled from the spec §4.1: `Piece.move(row, col)` unconditionally overwrites the
position fields; no bounds checking. -/
def Piece.move (p : Piece) (row col : Int) : Piece :=
  { p with row := row, col := col }

/-- Modelled from the spec §4.1: `make_king()` sets the king flag true; idempotent. -/
def Piece.make_king (p : Piece) : Piece :=
  { p with king := true }

/-- A grid cell: the Python source uses the sentinel `0` for an empty cell and a
`Piece` object reference otherwise. -/
inductive Cell where
  | empty : Cell
  | piece : Piece → Cell
deriving DecidableEq, Repr

/-- The 8×8 grid `self.board` (a list of lists in Python), embedded as a total
function; only indices in `[0,8) × [0,8)` correspond to real cells. -/
def Grid := Int → Int → Cell

/-- Point update `self.board[r][c] = v`. -/
def gridSet (g : Grid) (r c : Int) (v : Cell) : Grid :=
  fun r' c' => if (r', c') = (r, c) then v else g r' c'

/-- The state owned by `class Board`: the grid plus the live-piece and king counters. -/
structure Board where
  board : Grid
  red_left : Int
  white_left : Int
  red_kings : Int
  white_kings : Int

/-- `Board.create_board`: for each cell with `col % 2 == (row + 1) % 2` place a top
piece if `row < 3`, a bottom piece if `row > 4`, else leave the cell empty; every
other cell is empty.  The guard `0 ≤ row < 8 ∧ 0 ≤ col < 8` delimits the cells the
Python 8×8 list actually has. -/
def create_board : Grid := fun row col =>
  if 0 ≤ row ∧ row < ROWS ∧ 0 ≤ col ∧ col < COLS ∧ col % 2 = (row + 1) % 2 then
    if row < 3 then Cell.piece ⟨row, col, PLAYER_COLOR_TOP, false⟩
    else if row > 4 then Cell.piece ⟨row, col, PLAYER_COLOR_BOTTOM, false⟩
    else Cell.empty
  else Cell.empty

/-- `Board.__init__`: counters `red_left = white_left = 12`, `red_kings = white_kings = 0`,
then `create_board()`. -/
def initialBoard : Board :=
  { board := create_board, red_left := 12, white_left := 12, red_kings := 0, white_kings := 0 }

/-- `Board.evaluate`: `white_left - red_left + (white_kings * 0.5 - red_kings * 0.5)`.
All quantities reachable here are small integers and halves, on which Python float
arithmetic is exact, so the embedding uses `ℚ`. -/
def Board.evaluate (b : Board) : ℚ :=
  (b.white_left : ℚ) - (b.red_left : ℚ) +
    ((b.white_kings : ℚ) * (1 / 2) - (b.red_kings : ℚ) * (1 / 2))

/-- `Board.get_piece(row, col)`. -/
def Board.get_piece (b : Board) (row col : Int) : Cell :=
  b.board row col

/-- `Board.move(piece, row, col)`: swaps the source and destination grid cells, then
mutates the piece in place (`piece.move`), and if the destination row is `0` or
`ROWS - 1` promotes it (`make_king`) and increments the mover's color king counter.
Python mutates the one `Piece` object that — under the ownership invariant of spec
§3 — sits in the source cell and, after the swap, in the destination cell; the value
embedding therefore stores the updated piece value in the destination cell and
returns it alongside the new board. -/
def Board.move (b : Board) (piece : Piece) (row col : Int) : Board × Piece :=
  let dst := b.board row col
  let g1 := gridSet b.board piece.row piece.col dst
  let p1 := piece.move row col
  let promoted := row = ROWS - 1 ∨ row = 0
  let p2 := if promoted then p1.make_king else p1
  let g2 := gridSet g1 row col (Cell.piece p2)
  if promoted then
    if piece.color = PLAYER_COLOR_TOP then
      ({ b with board := g2, white_kings := b.white_kings + 1 }, p2)
    else
      ({ b with board := g2, red_kings := b.red_kings + 1 }, p2)
  else
    ({ b with board := g2 }, p2)

/-- Loop body of `Board.remove`: clear one piece's recorded grid cell and decrement
its color's live counter. -/
def removeOne (bb : Board) (p : Piece) : Board :=
  let bb1 := { bb with board := gridSet bb.board p.row p.col Cell.empty }
  if p.color = PLAYER_COLOR_BOTTOM then { bb1 with red_left := bb1.red_left - 1 }
  else { bb1 with white_left := bb1.white_left - 1 }

/-- `Board.remove(pieces)`: clear each piece's recorded grid cell and decrement its
color's live counter.  The source's `if piece != 0` guard is vacuously true for
every `Piece` object (the capture lists only ever hold pieces), so the embedding
decrements unconditionally. -/
def Board.remove (b : Board) (pieces : List Piece) : Board :=
  pieces.foldl removeOne b

/-- `Board.winner`. -/
def Board.winner (b : Board) : Option Color :=
  if b.red_left ≤ 0 then some PLAYER_COLOR_TOP
  else if b.white_left ≤ 0 then some PLAYER_COLOR_BOTTOM
  else none

/-- Transient move map: the Python `dict` from a destination `(row, col)` to the list
of captured pieces for that destination. -/
def MoveMap := Int × Int → Option (List Piece)

def emptyMoves : MoveMap := fun _ => none

/-- `moves[(r, c)] = v`. -/
def minsert (m : MoveMap) (k : Int × Int) (v : List Piece) : MoveMap :=
  fun k' => if k' = k then some v else m k'

/-- `m1.update(m2)`: keys of `m2` overwrite keys of `m1`. -/
def mupdate (m1 m2 : MoveMap) : MoveMap :=
  fun k =>
    match m2 k with
    | some v => some v
    | none => m1 k

/-- Number of iterations of Python `range(start, stop, step)` for `step = ±1`. -/
def rangeLen (start stop step : Int) : Nat :=
  if step < 0 then (start - stop).toNat else (stop - start).toNat

/-- The pair of traversal procedures available to the capture-chain recursion at a
given fuel level; argument order: iteration count, current row, `step`, `color`,
current column, `skipped`, `last`. -/
structure TravFns where
  left : Nat → Int → Int → Color → Int → List Piece → List Piece → Option MoveMap
  right : Nat → Int → Int → Color → Int → List Piece → List Piece → Option MoveMap

/-- Fuel exhaustion (unreachable from `get_valid_moves`, see `travFns_isSome`). -/
def noFuel : TravFns :=
  { left := fun _ _ _ _ _ _ _ => none, right := fun _ _ _ _ _ _ _ => none }

/-- The loop of `Board._traverse_left` at one fuel level.  `it + 1` remaining
iterations with current row `r` and current column `left`; `skipped` and `last`
exactly as in the source.  On an empty cell: a `skipped`-but-no-`last` branch is
dead; otherwise the cell is recorded with captures `last + skipped` (or `last`),
and if `last` is non-empty the search recurses one step past the landing square in
both column directions over a row window of at most 3 rows clipped to the board
(`max (r-3) 0` upward, `min (r+3) ROWS` downward), with `skipped = last`.  A
same-color piece stops the branch; an opponent piece becomes the new `last`. -/
def loopLeft (g : Grid) (next : TravFns) :
    Nat → Int → Int → Color → Int → List Piece → List Piece → Option MoveMap
  | 0, _, _, _, _, _, _ => some emptyMoves
  | it + 1, r, step, color, left, skipped, last =>
    if left < 0 then some emptyMoves
    else if r < 0 ∨ 8 ≤ r ∨ 8 ≤ left then none
    else
      match g r left with
      | Cell.empty =>
        if skipped ≠ [] ∧ last = [] then some emptyMoves
        else
          let caps := if skipped ≠ [] then last ++ skipped else last
          let base := minsert emptyMoves (r, left) caps
          if last ≠ [] then
            let row := if step = -1 then max (r - 3) 0 else min (r + 3) ROWS
            match next.left (rangeLen (r + step) row step) (r + step) step color (left - 1) last [] with
            | none => none
            | some mL =>
              match next.right (rangeLen (r + step) row step) (r + step) step color (left + 1) last [] with
              | none => none
              | some mR => some (mupdate (mupdate base mL) mR)
          else some base
      | Cell.piece cur =>
        if cur.color = color then some emptyMoves
        else loopLeft g next it (r + step) step color (left - 1) skipped [cur]

/-- The loop of `Board._traverse_right` at one fuel level; mirror image of
`loopLeft` with the column increasing and the off-board guard `right >= COLS`. -/
def loopRight (g : Grid) (next : TravFns) :
    Nat → Int → Int → Color → Int → List Piece → List Piece → Option MoveMap
  | 0, _, _, _, _, _, _ => some emptyMoves
  | it + 1, r, step, color, right, skipped, last =>
    if COLS ≤ right then some emptyMoves
    else if r < 0 ∨ 8 ≤ r ∨ right < 0 then none
    else
      match g r right with
      | Cell.empty =>
        if skipped ≠ [] ∧ last = [] then some emptyMoves
        else
          let caps := if skipped ≠ [] then last ++ skipped else last
          let base := minsert emptyMoves (r, right) caps
          if last ≠ [] then
            let row := if step = -1 then max (r - 3) 0 else min (r + 3) ROWS
            match next.left (rangeLen (r + step) row step) (r + step) step color (right - 1) last [] with
            | none => none
            | some mL =>
              match next.right (rangeLen (r + step) row step) (r + step) step color (right + 1) last [] with
              | none => none
              | some mR => some (mupdate (mupdate base mL) mR)
          else some base
      | Cell.piece cur =>
        if cur.color = color then some emptyMoves
        else loopRight g next it (r + step) step color (right + 1) skipped [cur]

/-- The traversal pair at each fuel level; each capture-chain recursion steps down
one level. -/
def travFns (g : Grid) : Nat → TravFns
  | 0 => noFuel
  | fuel + 1 => { left := loopLeft g (travFns g fuel), right := loopRight g (travFns g fuel) }

/-- `Board._traverse_left(start, stop, step, color, left, skipped=[])` (the default
argument is the empty list) at a given fuel. -/
def Board._traverse_left (b : Board) (fuel : Nat) (start stop step : Int) (color : Color)
    (left : Int) (skipped : List Piece) : Option MoveMap :=
  (travFns b.board fuel).left (rangeLen start stop step) start step color left skipped []

/-- `Board._traverse_right(start, stop, step, color, right, skipped=[])` at a given
fuel. -/
def Board._traverse_right (b : Board) (fuel : Nat) (start stop step : Int) (color : Color)
    (right : Int) (skipped : List Piece) : Option MoveMap :=
  (travFns b.board fuel).right (rangeLen start stop step) start step color right skipped []

/-- `Board.get_valid_moves(piece)`: for a bottom-color or king piece traverse upward
(rows `row-1` down to exclusive `max(row-3, -1)`), for a top-color or king piece
traverse downward (rows `row+1` up to exclusive `min(row+3, ROWS)`), in each case
left and right of `piece.col`, merging the four dictionaries with `dict.update`
(later maps overwrite earlier keys).  Fuel 8 is enough for every chain on an 8-row
board (each chain level moves two rows further, see `travFns_isSome`). -/
def Board.get_valid_moves (b : Board) (piece : Piece) : Option MoveMap := do
  let left := piece.col - 1
  let right := piece.col + 1
  let row := piece.row
  let m1 ←
    if piece.color = PLAYER_COLOR_BOTTOM ∨ piece.king = true then do
      let a ← b._traverse_left 8 (row - 1) (max (row - 3) (-1)) (-1) piece.color left []
      let c ← b._traverse_right 8 (row - 1) (max (row - 3) (-1)) (-1) piece.color right []
      pure (mupdate (mupdate emptyMoves a) c)
    else pure emptyMoves
  let m2 ←
    if piece.color = PLAYER_COLOR_TOP ∨ piece.king = true then do
      let a ← b._traverse_left 8 (row + 1) (min (row + 3) ROWS) 1 piece.color left []
      let c ← b._traverse_right 8 (row + 1) (min (row + 3) ROWS) 1 piece.color right []
      pure (mupdate (mupdate m1 a) c)
    else pure m1
  pure m2

/-- Lookup of one destination in `get_valid_moves(piece)`; `none` both for an absent
key and for the unreachable undefined-behaviour escape of the traversal. -/
def movesAt (b : Board) (piece : Piece) (k : Int × Int) : Option (List Piece) :=
  match b.get_valid_moves piece with
  | some m => m k
  | none => none

/-! ### Counting the pieces on the grid -/

/-- Does this cell hold a piece of the given color? -/
def cellColorB (v : Cell) (color : Color) : Bool :=
  match v with
  | Cell.empty => false
  | Cell.piece p => decide (p.color = color)

/-- The 64 cell coordinates of the Python 8×8 board. -/
def cellList : List (Int × Int) :=
  (List.range 8).flatMap fun r => (List.range 8).map fun c => ((r : Int), (c : Int))

/-- Number of pieces of the given color on the grid. -/
def gridCount (g : Grid) (color : Color) : Nat :=
  cellList.countP fun x => cellColorB (g x.1 x.2) color

/-- Number of live pieces of the given color on the board's grid. -/
def pieceCount (b : Board) (color : Color) : Nat :=
  gridCount b.board color

/-- Cell `(r, c)` is coherent: if it holds a piece, that piece's stored coordinates
are `(r, c)`. -/
def cellOk (b : Board) (r c : Fin 8) : Bool :=
  match b.board (r.val : Int) (c.val : Int) with
  | Cell.empty => true
  | Cell.piece p => decide (p.row = (r.val : Int) ∧ p.col = (c.val : Int))

/-- The Board representation invariant of spec §3: every live piece's stored
`(row, col)` matches its grid cell, each occupied cell holds exactly one piece
(no piece sits in two cells), and each color's grid census equals its counter. -/
def Invariant (b : Board) : Prop :=
  (∀ r c : Fin 8, cellOk b r c = true) ∧
  (∀ r c r' c' : Fin 8, ∀ p : Piece,
      b.board (r.val : Int) (c.val : Int) = Cell.piece p →
      b.board (r'.val : Int) (c'.val : Int) = Cell.piece p → r = r' ∧ c = c') ∧
  ((pieceCount b PLAYER_COLOR_TOP : Int) = b.white_left) ∧
  ((pieceCount b PLAYER_COLOR_BOTTOM : Int) = b.red_left)

/-! ### Traversal result invariants -/

/-- Facts about one `(destination, captures)` entry produced by a traversal loop
called with iteration budget `iters` at row `r`, column `col`, direction `step`
and accumulated parent captures `skipped`. -/
def KeyFacts (g : Grid) (color : Color) (r step col : Int) (iters : Nat)
    (skipped : List Piece) (k : Int × Int) (caps : List Piece) : Prop :=
  (0 ≤ k.1 ∧ k.1 ≤ 7 ∧ 0 ≤ k.2 ∧ k.2 ≤ 7 ∧ g k.1 k.2 = Cell.empty) ∧
  (step = -1 → k.1 ≤ r) ∧
  (step = 1 → r ≤ k.1) ∧
  (step = -1 → 1 ≤ k.1 ∨ r < (iters : Int)) ∧
  (∀ q ∈ caps, q.color ≠ color) ∧
  (skipped.length ≤ 1 → caps.length ≤ 2) ∧
  (skipped.length = 1 → caps.length = 2) ∧
  (skipped = [] → step = -1 → k.1 = 0 → caps.length ≤ 1) ∧
  (iters ≠ 0) ∧
  (step = -1 → col - (r - k.1) ≤ k.2 ∧ k.2 ≤ col + (r - k.1)) ∧
  (step = 1 → col - (k.1 - r) ≤ k.2 ∧ k.2 ≤ col + (k.1 - r)) ∧
  (step = -1 → skipped = [] → (iters : Int) ≤ 2 → k.1 ≤ r - 2 → caps.length = 2) ∧
  (step = -1 → skipped = [] → (iters : Int) ≤ 1 → k.1 ≤ r - 1 → caps.length = 2) ∧
  (step = 1 → skipped = [] → (iters : Int) ≤ 2 → r + 2 ≤ k.1 → caps.length = 2) ∧
  (step = 1 → skipped = [] → (iters : Int) ≤ 1 → r + 1 ≤ k.1 → caps.length = 2)

/-- Every entry of the map satisfies `KeyFacts`. -/
def GoodMap (g : Grid) (color : Color) (r step col : Int) (iters : Nat)
    (skipped : List Piece) (m : MoveMap) : Prop :=
  ∀ k caps, m k = some caps → KeyFacts g color r step col iters skipped k caps

/-- Both traversal procedures of a fuel level only return good maps. -/
def NextGood (g : Grid) (fns : TravFns) : Prop :=
  ∀ (iters : Nat) (r step : Int) (color : Color) (col : Int) (skipped last : List Piece),
    last.length ≤ 1 → (∀ q ∈ skipped, q.color ≠ color) → (∀ q ∈ last, q.color ≠ color) →
    (∀ m, fns.left iters r step color col skipped last = some m →
        GoodMap g color r step col iters skipped m) ∧
    (∀ m, fns.right iters r step color col skipped last = some m →
        GoodMap g color r step col iters skipped m)

/-- Precondition under which a traversal call has enough fuel and stays on the
board: the loop's row window lies inside `[0,8)` and the fuel dominates the
distance to the board edge in the direction of travel. -/
def PreTrav (fuel iters : Nat) (r step : Int) : Prop :=
  (step = -1 ∧ -1 ≤ r - (iters : Int) ∧ r ≤ 7 ∧ (r + 2).toNat ≤ fuel) ∨
  (step = 1 ∧ 0 ≤ r ∧ r + (iters : Int) ≤ 8 ∧ (9 - r).toNat ≤ fuel)

/-- Both traversal procedures of a fuel level succeed under `PreTrav` (given the
side of the column guarded by a break). -/
def NextSome (fuel : Nat) (fns : TravFns) : Prop :=
  ∀ (iters : Nat) (r step : Int) (color : Color) (col : Int) (skipped last : List Piece),
    PreTrav fuel iters r step →
    (col ≤ 7 → (fns.left iters r step color col skipped last).isSome) ∧
    (0 ≤ col → (fns.right iters r step color col skipped last).isSome)

/-! ### Concrete boards used by counterexamples, demonstrations and witnesses -/

/-- The all-empty grid, for building small concrete positions. -/
def emptyGrid : Grid := fun _ _ => Cell.empty

/-- The literal evaluation formula stated by the spec's `evaluate()` sentence
(`(top_live_count - bottom_live_count) + 0.5*(top_kings - bottom_kings)
- 0.5*(bottom_kings)`), written from the spec's words for comparison with
`Board.evaluate`. -/
def specEvalFormula (b : Board) : ℚ :=
  ((b.white_left : ℚ) - (b.red_left : ℚ)) +
    (1 / 2) * ((b.white_kings : ℚ) - (b.red_kings : ℚ)) - (1 / 2) * (b.red_kings : ℚ)

/-- A board state whose bottom color owns one king. -/
def c2Board : Board :=
  { board := gridSet emptyGrid 0 1 (Cell.piece ⟨0, 1, Color.bottom, true⟩),
    red_left := 1, white_left := 1, red_kings := 1, white_kings := 0 }

/-- First-jumped white piece of the two-jump demo. -/
def w1 : Piece := ⟨4, 3, Color.top, false⟩

/-- Second-jumped white piece of the two-jump demo. -/
def w2 : Piece := ⟨2, 1, Color.top, false⟩

/-- Red piece with a double jump `(5,4) → (3,2) → (1,0)` over `w1` then `w2`. -/
def c3Piece : Piece := ⟨5, 4, Color.bottom, false⟩

/-- Board for the two-jump demo: red at `(5,4)`, whites at `(4,3)` and `(2,1)`. -/
def c3Board : Board :=
  { board := gridSet (gridSet (gridSet emptyGrid 5 4 (Cell.piece c3Piece))
      4 3 (Cell.piece w1)) 2 1 (Cell.piece w2),
    red_left := 1, white_left := 2, red_kings := 0, white_kings := 0 }

/-- Red piece whose second upward jump would land on row 0. -/
def clipPiece : Piece := ⟨4, 4, Color.bottom, false⟩

/-- Board where red at `(4,4)` has jumps over `(3,3)` to `(2,2)` and over `(1,1)`
to `(0,0)`, the second landing on row 0. -/
def clipBoard : Board :=
  { board := gridSet (gridSet (gridSet emptyGrid 4 4 (Cell.piece clipPiece))
      3 3 (Cell.piece ⟨3, 3, Color.top, false⟩)) 1 1 (Cell.piece ⟨1, 1, Color.top, false⟩),
    red_left := 1, white_left := 2, red_kings := 0, white_kings := 0 }

/-- First-jumped red piece of the downward double jump onto row 7. -/
def r1 : Piece := ⟨4, 3, Color.bottom, false⟩

/-- Second-jumped red piece of the downward double jump onto row 7. -/
def r2 : Piece := ⟨6, 5, Color.bottom, false⟩

/-- White piece with a double jump `(3,2) → (5,4) → (7,6)` onto row 7. -/
def c10Piece : Piece := ⟨3, 2, Color.top, false⟩

/-- Board for the downward double jump onto row 7. -/
def c10Board : Board :=
  { board := gridSet (gridSet (gridSet emptyGrid 3 2 (Cell.piece c10Piece))
      4 3 (Cell.piece r1)) 6 5 (Cell.piece r2),
    red_left := 2, white_left := 1, red_kings := 0, white_kings := 0 }

/-- First-, second- and third-jumped white pieces of the triple-jump demo. -/
def q1 : Piece := ⟨6, 5, Color.top, false⟩

/-- Second-jumped white piece of the triple-jump demo. -/
def q2 : Piece := ⟨4, 3, Color.top, false⟩

/-- Third-jumped white piece of the triple-jump demo. -/
def q3 : Piece := ⟨2, 1, Color.top, false⟩

/-- Red piece with a triple jump `(7,6) → (5,4) → (3,2) → (1,0)`. -/
def triPiece : Piece := ⟨7, 6, Color.bottom, false⟩

/-- Board for the triple-jump demo: whites at `(6,5)`, `(4,3)` and `(2,1)`. -/
def triBoard : Board :=
  { board := gridSet (gridSet (gridSet (gridSet emptyGrid 7 6 (Cell.piece triPiece))
      6 5 (Cell.piece q1)) 4 3 (Cell.piece q2)) 2 1 (Cell.piece q3),
    red_left := 1, white_left := 3, red_kings := 0, white_kings := 0 }

/-- Red piece with a single upward jump `(2,2) → (0,0)` landing on row 0. -/
def rowZeroPiece : Piece := ⟨2, 2, Color.bottom, false⟩

/-- Board where red at `(2,2)` jumps white `(1,1)` onto `(0,0)`. -/
def rowZeroBoard : Board :=
  { board := gridSet (gridSet emptyGrid 2 2 (Cell.piece rowZeroPiece))
      1 1 (Cell.piece ⟨1, 1, Color.top, false⟩),
    red_left := 1, white_left := 1, red_kings := 0, white_kings := 0 }

/-! ### Move-map kit -/

theorem emptyMoves_apply (k : Int × Int) : emptyMoves k = none := rfl

theorem minsert_apply (m : MoveMap) (k k' : Int × Int) (v : List Piece) :
    minsert m k v k' = if k' = k then some v else m k' := rfl

theorem mupdate_some_elim {m1 m2 : MoveMap} {k : Int × Int} {v : List Piece}
    (h : mupdate m1 m2 k = some v) : m1 k = some v ∨ m2 k = some v := by
  unfold mupdate at h
  cases h2 : m2 k with
  | none => rw [h2] at h; exact Or.inl h
  | some w =>
    rw [h2] at h
    exact Or.inr h

theorem mupdate_apply_right {m1 m2 : MoveMap} {k : Int × Int} {v : List Piece}
    (h : m2 k = some v) : mupdate m1 m2 k = some v := by
  unfold mupdate; rw [h]

theorem mupdate_apply_none {m1 m2 : MoveMap} {k : Int × Int}
    (h : m2 k = none) : mupdate m1 m2 k = m1 k := by
  unfold mupdate; rw [h]

theorem mupdate_none_iff {m1 m2 : MoveMap} {k : Int × Int} :
    mupdate m1 m2 k = none ↔ m1 k = none ∧ m2 k = none := by
  unfold mupdate
  cases h2 : m2 k with
  | none => simp
  | some w => simp

/-! ### Single-iteration unfolding of the traversal loops -/

theorem loopLeft_zero (g : Grid) (next : TravFns) (r step : Int) (color : Color)
    (col : Int) (skipped last : List Piece) :
    loopLeft g next 0 r step color col skipped last = some emptyMoves := rfl

theorem loopRight_zero (g : Grid) (next : TravFns) (r step : Int) (color : Color)
    (col : Int) (skipped last : List Piece) :
    loopRight g next 0 r step color col skipped last = some emptyMoves := rfl

theorem loopLeft_piece (g : Grid) (next : TravFns) (it : Nat) (r step : Int)
    (color : Color) (col : Int) (skipped last : List Piece) (cur : Piece)
    (hcol : ¬ col < 0) (hb : ¬ (r < 0 ∨ 8 ≤ r ∨ 8 ≤ col))
    (hg : g r col = Cell.piece cur) (hc : ¬ cur.color = color) :
    loopLeft g next (it + 1) r step color col skipped last =
      loopLeft g next it (r + step) step color (col - 1) skipped [cur] := by
  simp only [loopLeft, if_neg hcol, if_neg hb, hg, if_neg hc]

theorem loopRight_piece (g : Grid) (next : TravFns) (it : Nat) (r step : Int)
    (color : Color) (col : Int) (skipped last : List Piece) (cur : Piece)
    (hcol : ¬ COLS ≤ col) (hb : ¬ (r < 0 ∨ 8 ≤ r ∨ col < 0))
    (hg : g r col = Cell.piece cur) (hc : ¬ cur.color = color) :
    loopRight g next (it + 1) r step color col skipped last =
      loopRight g next it (r + step) step color (col + 1) skipped [cur] := by
  simp only [loopRight, if_neg hcol, if_neg hb, hg, if_neg hc]

theorem loopLeft_empty_rec (g : Grid) (next : TravFns) (it : Nat) (r step : Int)
    (color : Color) (col : Int) (skipped : List Piece) (q : Piece)
    (hcol : ¬ col < 0) (hb : ¬ (r < 0 ∨ 8 ≤ r ∨ 8 ≤ col))
    (hg : g r col = Cell.empty) :
    loopLeft g next (it + 1) r step color col skipped [q] =
      (match next.left (rangeLen (r + step) (if step = -1 then max (r - 3) 0 else min (r + 3) ROWS) step)
          (r + step) step color (col - 1) [q] [] with
       | none => none
       | some mL =>
         match next.right (rangeLen (r + step) (if step = -1 then max (r - 3) 0 else min (r + 3) ROWS) step)
             (r + step) step color (col + 1) [q] [] with
         | none => none
         | some mR =>
           some (mupdate (mupdate (minsert emptyMoves (r, col)
             (if skipped ≠ [] then [q] ++ skipped else [q])) mL) mR)) := by
  have h1 : ¬ (skipped ≠ [] ∧ ([q] : List Piece) = []) := by simp
  have h2 : ([q] : List Piece) ≠ [] := by simp
  simp only [loopLeft, if_neg hcol, if_neg hb, hg, if_neg h1, if_pos h2]

theorem loopRight_empty_rec (g : Grid) (next : TravFns) (it : Nat) (r step : Int)
    (color : Color) (col : Int) (skipped : List Piece) (q : Piece)
    (hcol : ¬ COLS ≤ col) (hb : ¬ (r < 0 ∨ 8 ≤ r ∨ col < 0))
    (hg : g r col = Cell.empty) :
    loopRight g next (it + 1) r step color col skipped [q] =
      (match next.left (rangeLen (r + step) (if step = -1 then max (r - 3) 0 else min (r + 3) ROWS) step)
          (r + step) step color (col - 1) [q] [] with
       | none => none
       | some mL =>
         match next.right (rangeLen (r + step) (if step = -1 then max (r - 3) 0 else min (r + 3) ROWS) step)
             (r + step) step color (col + 1) [q] [] with
         | none => none
         | some mR =>
           some (mupdate (mupdate (minsert emptyMoves (r, col)
             (if skipped ≠ [] then [q] ++ skipped else [q])) mL) mR)) := by
  have h1 : ¬ (skipped ≠ [] ∧ ([q] : List Piece) = []) := by simp
  have h2 : ([q] : List Piece) ≠ [] := by simp
  simp only [loopRight, if_neg hcol, if_neg hb, hg, if_neg h1, if_pos h2]

theorem loopLeft_empty_simple (g : Grid) (next : TravFns) (it : Nat) (r step : Int)
    (color : Color) (col : Int)
    (hcol : ¬ col < 0) (hb : ¬ (r < 0 ∨ 8 ≤ r ∨ 8 ≤ col))
    (hg : g r col = Cell.empty) :
    loopLeft g next (it + 1) r step color col [] [] =
      some (minsert emptyMoves (r, col) []) := by
  simp only [loopLeft, if_neg hcol, if_neg hb, hg]
  simp

theorem loopRight_empty_simple (g : Grid) (next : TravFns) (it : Nat) (r step : Int)
    (color : Color) (col : Int)
    (hcol : ¬ COLS ≤ col) (hb : ¬ (r < 0 ∨ 8 ≤ r ∨ col < 0))
    (hg : g r col = Cell.empty) :
    loopRight g next (it + 1) r step color col [] [] =
      some (minsert emptyMoves (r, col) []) := by
  simp only [loopRight, if_neg hcol, if_neg hb, hg]
  simp

theorem minsert_empty_elim {k k0 : Int × Int} {caps0 caps : List Piece}
    (h : minsert emptyMoves k0 caps0 k = some caps) : k = k0 ∧ caps = caps0 := by
  unfold minsert at h
  by_cases e : k = k0
  · rw [if_pos e] at h
    exact ⟨e, (Option.some.injEq _ _ ▸ h).symm⟩
  · rw [if_neg e] at h
    exact absurd h (by simp [emptyMoves])

/-! ### Transfer of `KeyFacts` across the loop's recursive calls -/

theorem keyFacts_record (g : Grid) (color : Color) (r step col : Int) (it : Nat)
    (skipped last caps : List Piece)
    (hr0 : 0 ≤ r) (hr7 : r ≤ 7) (hc0 : 0 ≤ col) (hc7 : col ≤ 7)
    (hg : g r col = Cell.empty)
    (hlen : last.length ≤ 1)
    (hsk : ∀ q ∈ skipped, q.color ≠ color) (hla : ∀ q ∈ last, q.color ≠ color)
    (hok : skipped = [] ∨ last ≠ [])
    (hcaps : caps = if skipped ≠ [] then last ++ skipped else last) :
    KeyFacts g color r step col (it + 1) skipped (r, col) caps := by
  have hlast1 : last ≠ [] → last.length = 1 := by
    intro hne
    cases last with
    | nil => exact absurd rfl hne
    | cons a t => simp only [List.length_cons] at hlen ⊢; omega
  refine ⟨⟨hr0, hr7, hc0, hc7, hg⟩, ?_, ?_, ?_, ?_, ?_, ?_, ?_, ?_, ?_, ?_, ?_, ?_, ?_, ?_⟩
  · intro _; exact le_refl r
  · intro _; exact le_refl r
  · intro _; omega
  · intro x hx
    by_cases h : skipped = []
    · rw [hcaps, if_neg (by simp [h])] at hx
      exact hla x hx
    · rw [hcaps, if_pos h] at hx
      rcases List.mem_append.mp hx with h' | h'
      exacts [hla x h', hsk x h']
  · intro hs1
    by_cases h : skipped = []
    · rw [hcaps, if_neg (by simp [h])]; omega
    · rw [hcaps, if_pos h, List.length_append]; omega
  · intro hs1
    have hne : skipped ≠ [] := by
      intro e; rw [e] at hs1; simp at hs1
    have hl1 : last.length = 1 := hlast1 (hok.resolve_left hne)
    rw [hcaps, if_pos hne, List.length_append, hl1, hs1]
  · intro hse _ _
    rw [hcaps, if_neg (by simp [hse])]
    exact hlen
  · exact Nat.succ_ne_zero it
  · intro _; constructor <;> omega
  · intro _; constructor <;> omega
  · intro _ _ _ habs; exact absurd habs (by omega)
  · intro _ _ _ habs; exact absurd habs (by omega)
  · intro _ _ _ habs; exact absurd habs (by omega)
  · intro _ _ _ habs; exact absurd habs (by omega)

theorem keyFacts_chain (g : Grid) (color : Color) (r step col : Int) (it : Nat)
    (skipped : List Piece) (q : Piece) (col' : Int)
    (hd : col' = col - 1 ∨ col' = col + 1)
    (hr0 : 0 ≤ r)
    (k : Int × Int) (caps : List Piece)
    (h : KeyFacts g color (r + step) step col'
        (rangeLen (r + step) (if step = -1 then max (r - 3) 0 else min (r + 3) ROWS) step)
        [q] k caps) :
    KeyFacts g color r step col (it + 1) skipped k caps := by
  obtain ⟨h1, h2, h3, h4, h5, h6, h7, h8, h9, h10, h11, h12, h13, h14, h15⟩ := h
  have hcaps2 : caps.length = 2 := h7 rfl
  have hpos : step = -1 → 1 ≤ k.1 := by
    intro hs
    subst hs
    rcases h4 rfl with h' | h'
    · exact h'
    · exfalso
      have e1 : rangeLen (r + -1) (if (-1 : Int) = -1 then max (r - 3) 0 else min (r + 3) ROWS) (-1)
          = (r + -1 - max (r - 3) 0).toNat := by
        rw [if_pos rfl]
        unfold rangeLen
        rw [if_pos (by omega)]
      rw [e1] at h' h9
      omega
  refine ⟨h1, ?_, ?_, ?_, h5, ?_, ?_, ?_, ?_, ?_, ?_, ?_, ?_, ?_, ?_⟩
  · intro hs; have := h2 hs; omega
  · intro hs; have := h3 hs; omega
  · intro hs; exact Or.inl (hpos hs)
  · intro _; omega
  · intro _; exact hcaps2
  · intro _ hs h0
    have := hpos hs
    exact absurd h0 (by omega)
  · exact Nat.succ_ne_zero it
  · intro hs
    have ha := h2 hs
    have hb := h10 hs
    rcases hd with rfl | rfl <;> omega
  · intro hs
    have ha := h3 hs
    have hb := h11 hs
    rcases hd with rfl | rfl <;> omega
  · intro _ _ _ _; exact hcaps2
  · intro _ _ _ _; exact hcaps2
  · intro _ _ _ _; exact hcaps2
  · intro _ _ _ _; exact hcaps2

theorem keyFacts_continue (g : Grid) (color : Color) (r step col : Int) (it : Nat)
    (skipped : List Piece) (col' : Int)
    (hd : col' = col - 1 ∨ col' = col + 1)
    (k : Int × Int) (caps : List Piece)
    (h : KeyFacts g color (r + step) step col' it skipped k caps) :
    KeyFacts g color r step col (it + 1) skipped k caps := by
  obtain ⟨h1, h2, h3, h4, h5, h6, h7, h8, h9, h10, h11, h12, h13, h14, h15⟩ := h
  refine ⟨h1, ?_, ?_, ?_, h5, h6, h7, h8, ?_, ?_, ?_, ?_, ?_, ?_, ?_⟩
  · intro hs; have := h2 hs; omega
  · intro hs; have := h3 hs; omega
  · intro hs
    rcases h4 hs with h' | h'
    · exact Or.inl h'
    · exact Or.inr (by omega)
  · exact Nat.succ_ne_zero it
  · intro hs
    have ha := h2 hs
    have hb := h10 hs
    rcases hd with rfl | rfl <;> omega
  · intro hs
    have ha := h3 hs
    have hb := h11 hs
    rcases hd with rfl | rfl <;> omega
  · intro hs hse hit hk
    exact h13 hs hse (by omega) (by omega)
  · intro hs hse hit hk
    exfalso; omega
  · intro hs hse hit hk
    exact h15 hs hse (by omega) (by omega)
  · intro hs hse hit hk
    exfalso; omega

/-! ### Every traversal result is a good map -/

theorem loopGood (g : Grid) (next : TravFns) (hnext : NextGood g next) :
    ∀ (it : Nat) (r step : Int) (color : Color) (col : Int) (skipped last : List Piece),
      last.length ≤ 1 → (∀ q ∈ skipped, q.color ≠ color) → (∀ q ∈ last, q.color ≠ color) →
      (∀ m, loopLeft g next it r step color col skipped last = some m →
          GoodMap g color r step col it skipped m) ∧
      (∀ m, loopRight g next it r step color col skipped last = some m →
          GoodMap g color r step col it skipped m) := by
  intro it
  induction it with
  | zero =>
    intro r step color col skipped last _ _ _
    constructor
    · intro m hm
      rw [loopLeft_zero] at hm
      obtain rfl : emptyMoves = m := Option.some.inj hm
      intro k caps hk
      exact absurd hk (by simp [emptyMoves])
    · intro m hm
      rw [loopRight_zero] at hm
      obtain rfl : emptyMoves = m := Option.some.inj hm
      intro k caps hk
      exact absurd hk (by simp [emptyMoves])
  | succ it ih =>
    intro r step color col skipped last hlen hsk hla
    constructor
    · intro m hm
      by_cases hcol : col < 0
      · simp only [loopLeft, if_pos hcol] at hm
        obtain rfl : emptyMoves = m := Option.some.inj hm
        intro k caps hk
        exact absurd hk (by simp [emptyMoves])
      · by_cases hb : r < 0 ∨ 8 ≤ r ∨ 8 ≤ col
        · simp only [loopLeft, if_neg hcol, if_pos hb] at hm
          exact Option.noConfusion hm
        · have hB : 0 ≤ r ∧ r ≤ 7 ∧ 0 ≤ col ∧ col ≤ 7 := by
            push_neg at hb hcol
            omega
          cases hcell : g r col with
          | piece cur =>
            by_cases hc : cur.color = color
            · simp only [loopLeft, if_neg hcol, if_neg hb, hcell, if_pos hc] at hm
              obtain rfl : emptyMoves = m := Option.some.inj hm
              intro k caps hk
              exact absurd hk (by simp [emptyMoves])
            · rw [loopLeft_piece g next it r step color col skipped last cur hcol hb hcell hc] at hm
              have hgood := (ih (r + step) step color (col - 1) skipped [cur] (by simp) hsk
                (by intro x hx; rw [List.mem_singleton] at hx; subst hx; exact hc)).1 m hm
              intro k caps hk
              exact keyFacts_continue g color r step col it skipped (col - 1) (Or.inl rfl)
                k caps (hgood k caps hk)
          | empty =>
            by_cases hdead : skipped ≠ [] ∧ last = []
            · simp only [loopLeft, if_neg hcol, if_neg hb, hcell, if_pos hdead] at hm
              obtain rfl : emptyMoves = m := Option.some.inj hm
              intro k caps hk
              exact absurd hk (by simp [emptyMoves])
            · cases hlast : last with
              | nil =>
                subst hlast
                have hse : skipped = [] := by
                  by_contra hne
                  exact hdead ⟨hne, rfl⟩
                subst hse
                rw [loopLeft_empty_simple g next it r step color col hcol hb hcell] at hm
                obtain rfl : minsert emptyMoves (r, col) [] = m := Option.some.inj hm
                intro k caps hk
                obtain ⟨rfl, rfl⟩ := minsert_empty_elim hk
                exact keyFacts_record g color r step col it [] [] []
                  (by omega) (by omega) (by omega) (by omega) hcell (by simp)
                  (by simp) (by simp) (Or.inl rfl) (by simp)
              | cons q t =>
                subst hlast
                have ht : t = [] := by
                  simp only [List.length_cons] at hlen
                  exact List.eq_nil_of_length_eq_zero (by omega)
                subst ht
                rw [loopLeft_empty_rec g next it r step color col skipped q hcol hb hcell] at hm
                revert hm
                cases hL : next.left (rangeLen (r + step)
                    (if step = -1 then max (r - 3) 0 else min (r + 3) ROWS) step)
                    (r + step) step color (col - 1) [q] [] with
                | none => intro hm; exact Option.noConfusion hm
                | some mL =>
                  cases hR : next.right (rangeLen (r + step)
                      (if step = -1 then max (r - 3) 0 else min (r + 3) ROWS) step)
                      (r + step) step color (col + 1) [q] [] with
                  | none => intro hm; exact Option.noConfusion hm
                  | some mR =>
                    intro hm
                    obtain rfl :
                        mupdate (mupdate (minsert emptyMoves (r, col)
                          (if skipped ≠ [] then [q] ++ skipped else [q])) mL) mR = m :=
                      Option.some.inj hm
                    intro k caps hk
                    rcases mupdate_some_elim hk with hk1 | hk2
                    · rcases mupdate_some_elim hk1 with hk3 | hk4
                      · obtain ⟨rfl, rfl⟩ := minsert_empty_elim hk3
                        exact keyFacts_record g color r step col it skipped [q] _
                          (by omega) (by omega) (by omega) (by omega) hcell (by simp)
                          hsk hla (Or.inr (by simp)) rfl
                      · have hgood := (hnext (rangeLen (r + step)
                            (if step = -1 then max (r - 3) 0 else min (r + 3) ROWS) step)
                            (r + step) step color (col - 1) [q] [] (by simp) hla (by simp)).1 mL hL
                        exact keyFacts_chain g color r step col it skipped q (col - 1)
                          (Or.inl rfl) (by omega) k caps (hgood k caps hk4)
                    · have hgood := (hnext (rangeLen (r + step)
                          (if step = -1 then max (r - 3) 0 else min (r + 3) ROWS) step)
                          (r + step) step color (col + 1) [q] [] (by simp) hla (by simp)).2 mR hR
                      exact keyFacts_chain g color r step col it skipped q (col + 1)
                        (Or.inr rfl) (by omega) k caps (hgood k caps hk2)
    · intro m hm
      by_cases hcol : COLS ≤ col
      · simp only [loopRight, if_pos hcol] at hm
        obtain rfl : emptyMoves = m := Option.some.inj hm
        intro k caps hk
        exact absurd hk (by simp [emptyMoves])
      · by_cases hb : r < 0 ∨ 8 ≤ r ∨ col < 0
        · simp only [loopRight, if_neg hcol, if_pos hb] at hm
          exact Option.noConfusion hm
        · have hB : 0 ≤ r ∧ r ≤ 7 ∧ 0 ≤ col ∧ col ≤ 7 := by
            push_neg at hb hcol
            simp only [COLS] at hcol
            omega
          cases hcell : g r col with
          | piece cur =>
            by_cases hc : cur.color = color
            · simp only [loopRight, if_neg hcol, if_neg hb, hcell, if_pos hc] at hm
              obtain rfl : emptyMoves = m := Option.some.inj hm
              intro k caps hk
              exact absurd hk (by simp [emptyMoves])
            · rw [loopRight_piece g next it r step color col skipped last cur hcol hb hcell hc] at hm
              have hgood := (ih (r + step) step color (col + 1) skipped [cur] (by simp) hsk
                (by intro x hx; rw [List.mem_singleton] at hx; subst hx; exact hc)).2 m hm
              intro k caps hk
              exact keyFacts_continue g color r step col it skipped (col + 1) (Or.inr rfl)
                k caps (hgood k caps hk)
          | empty =>
            by_cases hdead : skipped ≠ [] ∧ last = []
            · simp only [loopRight, if_neg hcol, if_neg hb, hcell, if_pos hdead] at hm
              obtain rfl : emptyMoves = m := Option.some.inj hm
              intro k caps hk
              exact absurd hk (by simp [emptyMoves])
            · cases hlast : last with
              | nil =>
                subst hlast
                have hse : skipped = [] := by
                  by_contra hne
                  exact hdead ⟨hne, rfl⟩
                subst hse
                rw [loopRight_empty_simple g next it r step color col hcol hb hcell] at hm
                obtain rfl : minsert emptyMoves (r, col) [] = m := Option.some.inj hm
                intro k caps hk
                obtain ⟨rfl, rfl⟩ := minsert_empty_elim hk
                exact keyFacts_record g color r step col it [] [] []
                  (by omega) (by omega) (by omega) (by omega) hcell (by simp)
                  (by simp) (by simp) (Or.inl rfl) (by simp)
              | cons q t =>
                subst hlast
                have ht : t = [] := by
                  simp only [List.length_cons] at hlen
                  exact List.eq_nil_of_length_eq_zero (by omega)
                subst ht
                rw [loopRight_empty_rec g next it r step color col skipped q hcol hb hcell] at hm
                revert hm
                cases hL : next.left (rangeLen (r + step)
                    (if step = -1 then max (r - 3) 0 else min (r + 3) ROWS) step)
                    (r + step) step color (col - 1) [q] [] with
                | none => intro hm; exact Option.noConfusion hm
                | some mL =>
                  cases hR : next.right (rangeLen (r + step)
                      (if step = -1 then max (r - 3) 0 else min (r + 3) ROWS) step)
                      (r + step) step color (col + 1) [q] [] with
                  | none => intro hm; exact Option.noConfusion hm
                  | some mR =>
                    intro hm
                    obtain rfl :
                        mupdate (mupdate (minsert emptyMoves (r, col)
                          (if skipped ≠ [] then [q] ++ skipped else [q])) mL) mR = m :=
                      Option.some.inj hm
                    intro k caps hk
                    rcases mupdate_some_elim hk with hk1 | hk2
                    · rcases mupdate_some_elim hk1 with hk3 | hk4
                      · obtain ⟨rfl, rfl⟩ := minsert_empty_elim hk3
                        exact keyFacts_record g color r step col it skipped [q] _
                          (by omega) (by omega) (by omega) (by omega) hcell (by simp)
                          hsk hla (Or.inr (by simp)) rfl
                      · have hgood := (hnext (rangeLen (r + step)
                            (if step = -1 then max (r - 3) 0 else min (r + 3) ROWS) step)
                            (r + step) step color (col - 1) [q] [] (by simp) hla (by simp)).1 mL hL
                        exact keyFacts_chain g color r step col it skipped q (col - 1)
                          (Or.inl rfl) (by omega) k caps (hgood k caps hk4)
                    · have hgood := (hnext (rangeLen (r + step)
                          (if step = -1 then max (r - 3) 0 else min (r + 3) ROWS) step)
                          (r + step) step color (col + 1) [q] [] (by simp) hla (by simp)).2 mR hR
                      exact keyFacts_chain g color r step col it skipped q (col + 1)
                        (Or.inr rfl) (by omega) k caps (hgood k caps hk2)

theorem travFns_good (g : Grid) : ∀ fuel, NextGood g (travFns g fuel) := by
  intro fuel
  induction fuel with
  | zero =>
    intro iters r step color col skipped last _ _ _
    constructor
    · intro m hm
      exact Option.noConfusion hm
    · intro m hm
      exact Option.noConfusion hm
  | succ fuel ih =>
    intro iters r step color col skipped last h1 h2 h3
    exact loopGood g (travFns g fuel) ih iters r step color col skipped last h1 h2 h3

/-! ### The traversal always succeeds on an on-board start -/

theorem preTrav_chain (fuel : Nat) (r step : Int) (hr0 : 0 ≤ r) (hr7 : r ≤ 7)
    (hstep : (step = -1 ∧ (r + 2).toNat ≤ fuel + 1) ∨ (step = 1 ∧ (9 - r).toNat ≤ fuel + 1)) :
    PreTrav fuel
      (rangeLen (r + step) (if step = -1 then max (r - 3) 0 else min (r + 3) ROWS) step)
      (r + step) step := by
  rcases hstep with ⟨hs, h3⟩ | ⟨hs, h3⟩
  · subst hs
    have e : (if (-1 : Int) = -1 then max (r - 3) 0 else min (r + 3) ROWS) = max (r - 3) 0 :=
      if_pos rfl
    rw [e]
    have e2 : rangeLen (r + -1) (max (r - 3) 0) (-1) = (r + -1 - max (r - 3) 0).toNat := by
      unfold rangeLen
      rw [if_pos (by omega)]
    rw [e2]
    exact Or.inl ⟨rfl, by omega, by omega, by omega⟩
  · subst hs
    have e : (if (1 : Int) = -1 then max (r - 3) 0 else min (r + 3) ROWS) = min (r + 3) ROWS :=
      if_neg (by omega)
    rw [e]
    have e2 : rangeLen (r + 1) (min (r + 3) ROWS) 1 = (min (r + 3) ROWS - (r + 1)).toNat := by
      unfold rangeLen
      rw [if_neg (by omega)]
    rw [e2]
    simp only [ROWS]
    exact Or.inr ⟨rfl, by omega, by omega, by omega⟩

theorem loopSome (g : Grid) (next : TravFns) (fuel : Nat) (hnext : NextSome fuel next) :
    ∀ (it : Nat) (r step : Int) (color : Color) (col : Int) (skipped last : List Piece),
      PreTrav (fuel + 1) it r step →
      (col ≤ 7 → (loopLeft g next it r step color col skipped last).isSome) ∧
      (0 ≤ col → (loopRight g next it r step color col skipped last).isSome) := by
  intro it
  induction it with
  | zero =>
    intro r step color col skipped last _
    constructor
    · intro _; rw [loopLeft_zero]; rfl
    · intro _; rw [loopRight_zero]; rfl
  | succ it ih =>
    intro r step color col skipped last hpre
    have hb0 : 0 ≤ r ∧ r ≤ 7 := by
      rcases hpre with ⟨_, h1, h2, _⟩ | ⟨_, h1, h2, _⟩ <;> constructor <;> omega
    have hfuel : (step = -1 ∧ (r + 2).toNat ≤ fuel + 1) ∨
        (step = 1 ∧ (9 - r).toNat ≤ fuel + 1) := by
      rcases hpre with ⟨hs, _, _, h3⟩ | ⟨hs, _, _, h3⟩
      · exact Or.inl ⟨hs, h3⟩
      · exact Or.inr ⟨hs, h3⟩
    have hpre' : PreTrav (fuel + 1) it (r + step) step := by
      rcases hpre with ⟨hs, h1, h2, h3⟩ | ⟨hs, h1, h2, h3⟩
      · exact Or.inl ⟨hs, by omega, by omega, by omega⟩
      · exact Or.inr ⟨hs, by omega, by omega, by omega⟩
    have hchain := preTrav_chain fuel r step hb0.1 hb0.2 hfuel
    constructor
    · intro hc7
      by_cases hcol : col < 0
      · simp [loopLeft, if_pos hcol]
      · have hb : ¬ (r < 0 ∨ 8 ≤ r ∨ 8 ≤ col) := by omega
        cases hcell : g r col with
        | piece cur =>
          by_cases hc : cur.color = color
          · simp [loopLeft, if_neg hcol, if_neg hb, hcell, if_pos hc]
          · rw [loopLeft_piece g next it r step color col skipped last cur hcol hb hcell hc]
            exact (ih (r + step) step color (col - 1) skipped [cur] hpre').1 (by omega)
        | empty =>
          by_cases hdead : skipped ≠ [] ∧ last = []
          · simp [loopLeft, if_neg hcol, if_neg hb, hcell, if_pos hdead]
          · by_cases hl : last = []
            · simp only [loopLeft, if_neg hcol, if_neg hb, hcell, if_neg hdead, hl]
              split <;> rfl
            · simp only [loopLeft, if_neg hcol, if_neg hb, hcell, if_neg hdead, if_pos hl]
              have h1 := (hnext (rangeLen (r + step)
                  (if step = -1 then max (r - 3) 0 else min (r + 3) ROWS) step)
                  (r + step) step color (col - 1) last [] hchain).1 (by omega)
              have h2 := (hnext (rangeLen (r + step)
                  (if step = -1 then max (r - 3) 0 else min (r + 3) ROWS) step)
                  (r + step) step color (col + 1) last [] hchain).2 (by omega)
              obtain ⟨mL, hmL⟩ := Option.isSome_iff_exists.mp h1
              obtain ⟨mR, hmR⟩ := Option.isSome_iff_exists.mp h2
              rw [hmL, hmR]
              rfl
    · intro hc0
      by_cases hcol : COLS ≤ col
      · simp [loopRight, if_pos hcol]
      · have hc7 : col ≤ 7 := by
          simp only [COLS] at hcol
          omega
        have hb : ¬ (r < 0 ∨ 8 ≤ r ∨ col < 0) := by omega
        cases hcell : g r col with
        | piece cur =>
          by_cases hc : cur.color = color
          · simp [loopRight, if_neg hcol, if_neg hb, hcell, if_pos hc]
          · rw [loopRight_piece g next it r step color col skipped last cur hcol hb hcell hc]
            exact (ih (r + step) step color (col + 1) skipped [cur] hpre').2 (by omega)
        | empty =>
          by_cases hdead : skipped ≠ [] ∧ last = []
          · simp [loopRight, if_neg hcol, if_neg hb, hcell, if_pos hdead]
          · by_cases hl : last = []
            · simp only [loopRight, if_neg hcol, if_neg hb, hcell, if_neg hdead, hl]
              split <;> rfl
            · simp only [loopRight, if_neg hcol, if_neg hb, hcell, if_neg hdead, if_pos hl]
              have h1 := (hnext (rangeLen (r + step)
                  (if step = -1 then max (r - 3) 0 else min (r + 3) ROWS) step)
                  (r + step) step color (col - 1) last [] hchain).1 (by omega)
              have h2 := (hnext (rangeLen (r + step)
                  (if step = -1 then max (r - 3) 0 else min (r + 3) ROWS) step)
                  (r + step) step color (col + 1) last [] hchain).2 (by omega)
              obtain ⟨mL, hmL⟩ := Option.isSome_iff_exists.mp h1
              obtain ⟨mR, hmR⟩ := Option.isSome_iff_exists.mp h2
              rw [hmL, hmR]
              rfl

theorem travFns_some (g : Grid) : ∀ fuel, NextSome fuel (travFns g fuel) := by
  intro fuel
  induction fuel with
  | zero =>
    intro iters r step color col skipped last hpre
    exfalso
    rcases hpre with ⟨_, h1, h2, h3⟩ | ⟨_, h1, h2, h3⟩ <;> omega
  | succ fuel ih =>
    intro iters r step color col skipped last hpre
    exact loopSome g (travFns g fuel) fuel ih iters r step color col skipped last hpre

/-! ### Facts about `get_valid_moves` -/

theorem preTrav_up (row : Int) (h0 : 0 ≤ row) (h7 : row ≤ 7) :
    PreTrav 8 (rangeLen (row - 1) (max (row - 3) (-1)) (-1)) (row - 1) (-1) := by
  have e : rangeLen (row - 1) (max (row - 3) (-1)) (-1)
      = ((row - 1) - max (row - 3) (-1)).toNat := by
    unfold rangeLen
    rw [if_pos (by omega)]
  rw [e]
  exact Or.inl ⟨rfl, by omega, by omega, by omega⟩

theorem preTrav_down (row : Int) (h0 : 0 ≤ row) (h7 : row ≤ 7) :
    PreTrav 8 (rangeLen (row + 1) (min (row + 3) ROWS) 1) (row + 1) 1 := by
  have e : rangeLen (row + 1) (min (row + 3) ROWS) 1
      = (min (row + 3) ROWS - (row + 1)).toNat := by
    unfold rangeLen
    rw [if_neg (by omega)]
  rw [e]
  simp only [ROWS]
  exact Or.inr ⟨rfl, by omega, by omega, by omega⟩

theorem gvm_isSome (b : Board) (p : Piece) (h0 : 0 ≤ p.row) (h7 : p.row ≤ 7)
    (hc0 : 0 ≤ p.col) (hc7 : p.col ≤ 7) : (b.get_valid_moves p).isSome := by
  have hUL := (travFns_some b.board 8 (rangeLen (p.row - 1) (max (p.row - 3) (-1)) (-1))
    (p.row - 1) (-1) p.color (p.col - 1) [] [] (preTrav_up p.row h0 h7)).1 (by omega)
  have hUR := (travFns_some b.board 8 (rangeLen (p.row - 1) (max (p.row - 3) (-1)) (-1))
    (p.row - 1) (-1) p.color (p.col + 1) [] [] (preTrav_up p.row h0 h7)).2 (by omega)
  have hDL := (travFns_some b.board 8 (rangeLen (p.row + 1) (min (p.row + 3) ROWS) 1)
    (p.row + 1) 1 p.color (p.col - 1) [] [] (preTrav_down p.row h0 h7)).1 (by omega)
  have hDR := (travFns_some b.board 8 (rangeLen (p.row + 1) (min (p.row + 3) ROWS) 1)
    (p.row + 1) 1 p.color (p.col + 1) [] [] (preTrav_down p.row h0 h7)).2 (by omega)
  obtain ⟨mUL, hmUL⟩ := Option.isSome_iff_exists.mp hUL
  obtain ⟨mUR, hmUR⟩ := Option.isSome_iff_exists.mp hUR
  obtain ⟨mDL, hmDL⟩ := Option.isSome_iff_exists.mp hDL
  obtain ⟨mDR, hmDR⟩ := Option.isSome_iff_exists.mp hDR
  have eUL : b._traverse_left 8 (p.row - 1) (max (p.row - 3) (-1)) (-1) p.color (p.col - 1) []
      = some mUL := hmUL
  have eUR : b._traverse_right 8 (p.row - 1) (max (p.row - 3) (-1)) (-1) p.color (p.col + 1) []
      = some mUR := hmUR
  have eDL : b._traverse_left 8 (p.row + 1) (min (p.row + 3) ROWS) 1 p.color (p.col - 1) []
      = some mDL := hmDL
  have eDR : b._traverse_right 8 (p.row + 1) (min (p.row + 3) ROWS) 1 p.color (p.col + 1) []
      = some mDR := hmDR
  by_cases h1 : p.color = PLAYER_COLOR_BOTTOM ∨ p.king = true <;>
    by_cases h2 : p.color = PLAYER_COLOR_TOP ∨ p.king = true <;>
      simp [Board.get_valid_moves, h1, h2, eUL, eUR, eDL, eDR]

theorem gvm_mem (b : Board) (p : Piece) {m : MoveMap}
    (h : b.get_valid_moves p = some m) (k : Int × Int) (caps : List Piece)
    (hk : m k = some caps) :
    ((p.color = PLAYER_COLOR_BOTTOM ∨ p.king = true) ∧
      ∃ col, (col = p.col - 1 ∨ col = p.col + 1) ∧
        KeyFacts b.board p.color (p.row - 1) (-1) col
          (rangeLen (p.row - 1) (max (p.row - 3) (-1)) (-1)) [] k caps) ∨
    ((p.color = PLAYER_COLOR_TOP ∨ p.king = true) ∧
      ∃ col, (col = p.col - 1 ∨ col = p.col + 1) ∧
        KeyFacts b.board p.color (p.row + 1) 1 col
          (rangeLen (p.row + 1) (min (p.row + 3) ROWS) 1) [] k caps) := by
  have goodGen : ∀ (iters : Nat) (r step col : Int) (mm : MoveMap),
      (travFns b.board 8).left iters r step p.color col [] [] = some mm →
      GoodMap b.board p.color r step col iters [] mm := by
    intro iters r step col mm hmm
    exact (travFns_good b.board 8 iters r step p.color col [] []
      (by simp) (by simp) (by simp)).1 mm hmm
  have goodGenR : ∀ (iters : Nat) (r step col : Int) (mm : MoveMap),
      (travFns b.board 8).right iters r step p.color col [] [] = some mm →
      GoodMap b.board p.color r step col iters [] mm := by
    intro iters r step col mm hmm
    exact (travFns_good b.board 8 iters r step p.color col [] []
      (by simp) (by simp) (by simp)).2 mm hmm
  by_cases h1 : p.color = PLAYER_COLOR_BOTTOM ∨ p.king = true
  · by_cases h2 : p.color = PLAYER_COLOR_TOP ∨ p.king = true
    · simp only [Board.get_valid_moves, if_pos h1, if_pos h2] at h
      revert h
      cases hUL : b._traverse_left 8 (p.row - 1) (max (p.row - 3) (-1)) (-1) p.color
          (p.col - 1) [] with
      | none => intro h; exact Option.noConfusion h
      | some mUL =>
        cases hUR : b._traverse_right 8 (p.row - 1) (max (p.row - 3) (-1)) (-1) p.color
            (p.col + 1) [] with
        | none => intro h; exact Option.noConfusion h
        | some mUR =>
          cases hDL : b._traverse_left 8 (p.row + 1) (min (p.row + 3) ROWS) 1 p.color
              (p.col - 1) [] with
          | none => intro h; exact Option.noConfusion h
          | some mDL =>
            cases hDR : b._traverse_right 8 (p.row + 1) (min (p.row + 3) ROWS) 1 p.color
                (p.col + 1) [] with
            | none => intro h; exact Option.noConfusion h
            | some mDR =>
              intro h
              obtain rfl : mupdate (mupdate (mupdate (mupdate emptyMoves mUL) mUR) mDL) mDR
                  = m := Option.some.inj h
              rcases mupdate_some_elim hk with hk1 | hkDR
              · rcases mupdate_some_elim hk1 with hk2 | hkDL
                · rcases mupdate_some_elim hk2 with hk3 | hkUR
                  · rcases mupdate_some_elim hk3 with hk4 | hkUL
                    · exact absurd hk4 (by simp [emptyMoves])
                    · exact Or.inl ⟨h1, p.col - 1, Or.inl rfl,
                        goodGen _ _ _ _ mUL hUL k caps hkUL⟩
                  · exact Or.inl ⟨h1, p.col + 1, Or.inr rfl,
                      goodGenR _ _ _ _ mUR hUR k caps hkUR⟩
                · exact Or.inr ⟨h2, p.col - 1, Or.inl rfl,
                    goodGen _ _ _ _ mDL hDL k caps hkDL⟩
              · exact Or.inr ⟨h2, p.col + 1, Or.inr rfl,
                  goodGenR _ _ _ _ mDR hDR k caps hkDR⟩
    · simp only [Board.get_valid_moves, if_pos h1, if_neg h2] at h
      revert h
      cases hUL : b._traverse_left 8 (p.row - 1) (max (p.row - 3) (-1)) (-1) p.color
          (p.col - 1) [] with
      | none => intro h; exact Option.noConfusion h
      | some mUL =>
        cases hUR : b._traverse_right 8 (p.row - 1) (max (p.row - 3) (-1)) (-1) p.color
            (p.col + 1) [] with
        | none => intro h; exact Option.noConfusion h
        | some mUR =>
          intro h
          obtain rfl : mupdate (mupdate emptyMoves mUL) mUR = m := Option.some.inj h
          rcases mupdate_some_elim hk with hk1 | hkUR
          · rcases mupdate_some_elim hk1 with hk2 | hkUL
            · exact absurd hk2 (by simp [emptyMoves])
            · exact Or.inl ⟨h1, p.col - 1, Or.inl rfl,
                goodGen _ _ _ _ mUL hUL k caps hkUL⟩
          · exact Or.inl ⟨h1, p.col + 1, Or.inr rfl,
              goodGenR _ _ _ _ mUR hUR k caps hkUR⟩
  · by_cases h2 : p.color = PLAYER_COLOR_TOP ∨ p.king = true
    · simp only [Board.get_valid_moves, if_neg h1, if_pos h2] at h
      revert h
      cases hDL : b._traverse_left 8 (p.row + 1) (min (p.row + 3) ROWS) 1 p.color
          (p.col - 1) [] with
      | none => intro h; exact Option.noConfusion h
      | some mDL =>
        cases hDR : b._traverse_right 8 (p.row + 1) (min (p.row + 3) ROWS) 1 p.color
            (p.col + 1) [] with
        | none => intro h; exact Option.noConfusion h
        | some mDR =>
          intro h
          obtain rfl : mupdate (mupdate emptyMoves mDL) mDR = m := Option.some.inj h
          rcases mupdate_some_elim hk with hk1 | hkDR
          · rcases mupdate_some_elim hk1 with hk2 | hkDL
            · exact absurd hk2 (by simp [emptyMoves])
            · exact Or.inr ⟨h2, p.col - 1, Or.inl rfl,
                goodGen _ _ _ _ mDL hDL k caps hkDL⟩
          · exact Or.inr ⟨h2, p.col + 1, Or.inr rfl,
              goodGenR _ _ _ _ mDR hDR k caps hkDR⟩
    · simp only [Board.get_valid_moves, if_neg h1, if_neg h2] at h
      obtain rfl : emptyMoves = m := Option.some.inj h
      exact absurd hk (by simp [emptyMoves])

theorem movesAt_eq_some {b : Board} {p : Piece} {k : Int × Int} {caps : List Piece} :
    movesAt b p k = some caps ↔
      ∃ m, b.get_valid_moves p = some m ∧ m k = some caps := by
  unfold movesAt
  cases h : b.get_valid_moves p with
  | none =>
    constructor
    · intro h'; exact Option.noConfusion h'
    · rintro ⟨m, hm, _⟩; exact Option.noConfusion hm
  | some m =>
    constructor
    · intro h'; exact ⟨m, rfl, h'⟩
    · rintro ⟨m', hm', hk'⟩
      obtain rfl : m = m' := Option.some.inj hm'
      exact hk'

/-! ### Claim C5 -/

/-- C5: for every board and on-board piece, `get_valid_moves` completes with every
grid read in bounds (the embedding returns `none` on any out-of-window read, so
`isSome` certifies it), and every returned destination lies in `[0,7] × [0,7]`
and is an empty cell at generation time. -/
theorem claimC5 (b : Board) (p : Piece) (h0 : 0 ≤ p.row) (h7 : p.row ≤ 7)
    (hc0 : 0 ≤ p.col) (hc7 : p.col ≤ 7) :
    (b.get_valid_moves p).isSome ∧
    ∀ k caps, movesAt b p k = some caps →
      0 ≤ k.1 ∧ k.1 ≤ 7 ∧ 0 ≤ k.2 ∧ k.2 ≤ 7 ∧ b.board k.1 k.2 = Cell.empty := by
  refine ⟨gvm_isSome b p h0 h7 hc0 hc7, ?_⟩
  intro k caps h
  obtain ⟨m, hm, hk⟩ := movesAt_eq_some.mp h
  rcases gvm_mem b p hm k caps hk with ⟨_, col, _, hf⟩ | ⟨_, col, _, hf⟩ <;> exact hf.1

theorem claimC5_witness :
    0 ≤ ((1, 0) : Int × Int).1 ∧ ((1, 0) : Int × Int).1 ≤ 7 ∧
    0 ≤ ((1, 0) : Int × Int).2 ∧ ((1, 0) : Int × Int).2 ≤ 7 ∧
    c3Board.board ((1, 0) : Int × Int).1 ((1, 0) : Int × Int).2 = Cell.empty :=
  (claimC5 c3Board c3Piece (by decide) (by decide) (by decide) (by decide)).2
    (1, 0) [w2, w1] (by decide)

/-! ### Claim C6 -/

/-- C6: a non-king bottom-color piece only gets destinations strictly above its
row (smaller row index); a non-king top-color piece only strictly below; hence
only a king can receive destinations in both row directions. -/
theorem claimC6 (b : Board) (p : Piece) (hking : p.king = false) :
    (p.color = PLAYER_COLOR_BOTTOM →
      ∀ k caps, movesAt b p k = some caps → k.1 < p.row) ∧
    (p.color = PLAYER_COLOR_TOP →
      ∀ k caps, movesAt b p k = some caps → p.row < k.1) ∧
    ¬ (∃ k1 c1 k2 c2, movesAt b p k1 = some c1 ∧ movesAt b p k2 = some c2 ∧
        k1.1 < p.row ∧ p.row < k2.1) := by
  have hbot : p.color = PLAYER_COLOR_BOTTOM →
      ∀ k caps, movesAt b p k = some caps → k.1 < p.row := by
    intro hcolor k caps h
    obtain ⟨m, hm, hk⟩ := movesAt_eq_some.mp h
    rcases gvm_mem b p hm k caps hk with ⟨_, col, _, hf⟩ | ⟨hdir, col, _, hf⟩
    · have := hf.2.1 rfl
      omega
    · exfalso
      rcases hdir with htop | hk2
      · rw [hcolor] at htop
        exact Color.noConfusion (show Color.bottom = Color.top from htop)
      · rw [hking] at hk2
        exact Bool.noConfusion hk2
  have htop : p.color = PLAYER_COLOR_TOP →
      ∀ k caps, movesAt b p k = some caps → p.row < k.1 := by
    intro hcolor k caps h
    obtain ⟨m, hm, hk⟩ := movesAt_eq_some.mp h
    rcases gvm_mem b p hm k caps hk with ⟨hdir, col, _, hf⟩ | ⟨_, col, _, hf⟩
    · exfalso
      rcases hdir with hbot' | hk2
      · rw [hcolor] at hbot'
        exact Color.noConfusion (show Color.top = Color.bottom from hbot')
      · rw [hking] at hk2
        exact Bool.noConfusion hk2
    · have := hf.2.2.1 rfl
      omega
  refine ⟨hbot, htop, ?_⟩
  rintro ⟨k1, c1, k2, c2, h1, h2, hlt1, hlt2⟩
  cases hc : p.color with
  | top =>
    have := htop hc k1 c1 h1
    omega
  | bottom =>
    have := hbot hc k2 c2 h2
    omega

theorem claimC6_witness :
    ((3, 2) : Int × Int).1 < c3Piece.row :=
  (claimC6 c3Board c3Piece (by decide)).1 (by decide) (3, 2) [w1] (by decide)

/-! ### Claim C10 -/

/-- C10: no destination on row 0 ever carries two or more captures — the upward
recursive window is clipped at `max(r-3, 0)`, so a second upward jump can never
land on row 0 — while the downward mirror (clipped at `min(r+3, ROWS)`) does
produce a two-capture destination on row 7, as the concrete board shows. -/
theorem claimC10 :
    (∀ (b : Board) (p : Piece) (c : Int) (caps : List Piece), 0 ≤ p.row →
        movesAt b p (0, c) = some caps → caps.length ≤ 1) ∧
    movesAt c10Board c10Piece (7, 6) = some [r2, r1] := by
  constructor
  · intro b p c caps hrow h
    obtain ⟨m, hm, hk⟩ := movesAt_eq_some.mp h
    rcases gvm_mem b p hm (0, c) caps hk with ⟨_, col, _, hf⟩ | ⟨_, col, _, hf⟩
    · obtain ⟨_, _, _, _, _, _, _, hf8, _⟩ := hf
      exact hf8 rfl rfl rfl
    · exfalso
      have h3 := hf.2.2.1 rfl
      have : p.row + 1 ≤ 0 := h3
      omega
  · decide

theorem claimC10_witness :
    ([(⟨1, 1, Color.top, false⟩ : Piece)]).length ≤ 1 ∧
    movesAt rowZeroBoard rowZeroPiece (0, 0) = some [⟨1, 1, Color.top, false⟩] :=
  ⟨claimC10.1 rowZeroBoard rowZeroPiece 0 [⟨1, 1, Color.top, false⟩] (by decide) (by decide),
    by decide⟩

/-! ### Claim C3 -/

/-- C3 counterexample: on the two-jump board the destination `(1,0)` maps to
`[w2, w1]` — the captures in reverse jump order (last-jumped first) — and not to
`[w1, w2]`, the first-jumped-first order the claim states. -/
theorem claimC3_counterexample :
    movesAt c3Board c3Piece (1, 0) = some [w2, w1] ∧
    movesAt c3Board c3Piece (1, 0) ≠ some [w1, w2] := by decide

/-- C3 amended: a destination's capture list holds at most the last two captures
of its chain, each an opponent piece, most recent first: a one-jump destination
maps to its single captured piece, a longer chain's destination maps to
`[last-captured, previous-captured]` (earlier captures are dropped, as the
triple-jump demonstration shows: `q1` is missing). -/
theorem claimC3 :
    (∀ (b : Board) (p : Piece) (k : Int × Int) (caps : List Piece),
        movesAt b p k = some caps →
        caps.length ≤ 2 ∧ ∀ q ∈ caps, q.color ≠ p.color) ∧
    movesAt c3Board c3Piece (3, 2) = some [w1] ∧
    movesAt c3Board c3Piece (1, 0) = some [w2, w1] ∧
    movesAt triBoard triPiece (1, 0) = some [q3, q2] := by
  refine ⟨?_, by decide, by decide, by decide⟩
  intro b p k caps h
  obtain ⟨m, hm, hk⟩ := movesAt_eq_some.mp h
  rcases gvm_mem b p hm k caps hk with ⟨_, col, _, hf⟩ | ⟨_, col, _, hf⟩ <;>
exact ⟨hf.2.2.2.2.2.1 (by simp), hf.2.2.2.2.1⟩

theorem claimC3_witness :
    ([w2, w1] : List Piece).length ≤ 2 ∧
    ∀ q ∈ ([w2, w1] : List Piece), q.color ≠ c3Piece.color :=
  claimC3.1 c3Board c3Piece (1, 0) [w2, w1] (by decide)

/-! ### Finding a configured double jump (towards claim C1) -/

theorem preTrav_mono {f f' i : Nat} {r s : Int} (h : PreTrav f i r s) (hle : f ≤ f') :
    PreTrav f' i r s := by
  rcases h with ⟨hs, h1, h2, h3⟩ | ⟨hs, h1, h2, h3⟩
  · exact Or.inl ⟨hs, h1, h2, by omega⟩
  · exact Or.inr ⟨hs, h1, h2, by omega⟩

theorem chainFindsLeft (g : Grid) (color : Color) (fuel : Nat) (r step col : Int)
    (p1 p2 : Piece)
    (hs : step = -1 ∨ step = 1)
    (hr0 : 0 ≤ r) (hr7 : r ≤ 7) (hq0 : 0 ≤ r + step) (hq7 : r + step ≤ 7)
    (hc0 : 0 ≤ col - 1) (hc7 : col ≤ 7)
    (hg1 : g r col = Cell.piece p2) (hp2 : ¬ p2.color = color)
    (hg2 : g (r + step) (col - 1) = Cell.empty)
    (hfuel : (step = -1 → (r + 1).toNat ≤ fuel + 1) ∧ (step = 1 → (8 - r).toNat ≤ fuel + 1)) :
    ∃ msub, (travFns g (fuel + 1)).left 2 r step color col [p1] [] = some msub ∧
      msub (r + step, col - 1) = some [p2, p1] := by
  have hcolA : ¬ col < 0 := by omega
  have hbA : ¬ (r < 0 ∨ 8 ≤ r ∨ 8 ≤ col) := by omega
  have hcolB : ¬ col - 1 < 0 := by omega
  have hbB : ¬ (r + step < 0 ∨ 8 ≤ r + step ∨ 8 ≤ col - 1) := by omega
  have e1 := loopLeft_piece g (travFns g fuel) 1 r step color col [p1] [] p2 hcolA hbA hg1 hp2
  have e2 := loopLeft_empty_rec g (travFns g fuel) 0 (r + step) step color (col - 1) [p1] p2
    hcolB hbB hg2
  rw [show (1 : Nat) + 1 = 2 from rfl] at e1
  rw [show (0 : Nat) + 1 = 1 from rfl] at e2
  have hpreDeep : PreTrav fuel (rangeLen (r + step + step)
      (if step = -1 then max (r + step - 3) 0 else min (r + step + 3) ROWS) step)
      (r + step + step) step := by
    exact preTrav_chain fuel (r + step) step hq0 hq7 (by
      rcases hs with hs | hs
      · refine Or.inl ⟨hs, ?_⟩
        have := hfuel.1 hs
        omega
      · refine Or.inr ⟨hs, ?_⟩
        have := hfuel.2 hs
        omega)
  have hsomeL := (travFns_some g fuel (rangeLen (r + step + step)
      (if step = -1 then max (r + step - 3) 0 else min (r + step + 3) ROWS) step)
      (r + step + step) step color (col - 1 - 1) [p2] [] hpreDeep).1 (by omega)
  have hsomeR := (travFns_some g fuel (rangeLen (r + step + step)
      (if step = -1 then max (r + step - 3) 0 else min (r + step + 3) ROWS) step)
      (r + step + step) step color (col - 1 + 1) [p2] [] hpreDeep).2 (by omega)
  obtain ⟨mdL, hmdL⟩ := Option.isSome_iff_exists.mp hsomeL
  obtain ⟨mdR, hmdR⟩ := Option.isSome_iff_exists.mp hsomeR
  have hgoodL := (travFns_good g fuel (rangeLen (r + step + step)
      (if step = -1 then max (r + step - 3) 0 else min (r + step + 3) ROWS) step)
      (r + step + step) step color (col - 1 - 1) [p2] [] (by simp)
      (by intro x hx; rw [List.mem_singleton] at hx; subst hx; exact hp2) (by simp)).1 mdL hmdL
  have hgoodR := (travFns_good g fuel (rangeLen (r + step + step)
      (if step = -1 then max (r + step - 3) 0 else min (r + step + 3) ROWS) step)
      (r + step + step) step color (col - 1 + 1) [p2] [] (by simp)
      (by intro x hx; rw [List.mem_singleton] at hx; subst hx; exact hp2) (by simp)).2 mdR hmdR
  have hnoL : mdL (r + step, col - 1) = none := by
    cases hmk : mdL (r + step, col - 1) with
    | none => rfl
    | some c =>
      exfalso
      have hf := hgoodL _ _ hmk
      rcases hs with hs | hs
      · have h2' : r + step ≤ r + step + step := hf.2.1 hs
        omega
      · have h2' : r + step + step ≤ r + step := hf.2.2.1 hs
        omega
  have hnoR : mdR (r + step, col - 1) = none := by
    cases hmk : mdR (r + step, col - 1) with
    | none => rfl
    | some c =>
      exfalso
      have hf := hgoodR _ _ hmk
      rcases hs with hs | hs
      · have h2' : r + step ≤ r + step + step := hf.2.1 hs
        omega
      · have h2' : r + step + step ≤ r + step := hf.2.2.1 hs
        omega
  refine ⟨mupdate (mupdate (minsert emptyMoves (r + step, col - 1)
    (if ([p1] : List Piece) ≠ [] then [p2] ++ [p1] else [p2])) mdL) mdR, ?_, ?_⟩
  · show loopLeft g (travFns g fuel) 2 r step color col [p1] [] = _
    rw [e1, e2, hmdL, hmdR]
  · rw [mupdate_apply_none hnoR, mupdate_apply_none hnoL, minsert_apply, if_pos rfl]
    simp

theorem chainFindsRight (g : Grid) (color : Color) (fuel : Nat) (r step col : Int)
    (p1 p2 : Piece)
    (hs : step = -1 ∨ step = 1)
    (hr0 : 0 ≤ r) (hr7 : r ≤ 7) (hq0 : 0 ≤ r + step) (hq7 : r + step ≤ 7)
    (hc0 : 0 ≤ col) (hc7 : col + 1 ≤ 7)
    (hg1 : g r col = Cell.piece p2) (hp2 : ¬ p2.color = color)
    (hg2 : g (r + step) (col + 1) = Cell.empty)
    (hfuel : (step = -1 → (r + 1).toNat ≤ fuel + 1) ∧ (step = 1 → (8 - r).toNat ≤ fuel + 1)) :
    ∃ msub, (travFns g (fuel + 1)).right 2 r step color col [p1] [] = some msub ∧
      msub (r + step, col + 1) = some [p2, p1] := by
  have hcolA : ¬ COLS ≤ col := by simp only [COLS]; omega
  have hbA : ¬ (r < 0 ∨ 8 ≤ r ∨ col < 0) := by omega
  have hcolB : ¬ COLS ≤ col + 1 := by simp only [COLS]; omega
  have hbB : ¬ (r + step < 0 ∨ 8 ≤ r + step ∨ col + 1 < 0) := by omega
  have e1 := loopRight_piece g (travFns g fuel) 1 r step color col [p1] [] p2 hcolA hbA hg1 hp2
  have e2 := loopRight_empty_rec g (travFns g fuel) 0 (r + step) step color (col + 1) [p1] p2
    hcolB hbB hg2
  rw [show (1 : Nat) + 1 = 2 from rfl] at e1
  rw [show (0 : Nat) + 1 = 1 from rfl] at e2
  have hpreDeep : PreTrav fuel (rangeLen (r + step + step)
      (if step = -1 then max (r + step - 3) 0 else min (r + step + 3) ROWS) step)
      (r + step + step) step := by
    exact preTrav_chain fuel (r + step) step hq0 hq7 (by
      rcases hs with hs | hs
      · refine Or.inl ⟨hs, ?_⟩
        have := hfuel.1 hs
        omega
      · refine Or.inr ⟨hs, ?_⟩
        have := hfuel.2 hs
        omega)
  have hsomeL := (travFns_some g fuel (rangeLen (r + step + step)
      (if step = -1 then max (r + step - 3) 0 else min (r + step + 3) ROWS) step)
      (r + step + step) step color (col + 1 - 1) [p2] [] hpreDeep).1 (by omega)
  have hsomeR := (travFns_some g fuel (rangeLen (r + step + step)
      (if step = -1 then max (r + step - 3) 0 else min (r + step + 3) ROWS) step)
      (r + step + step) step color (col + 1 + 1) [p2] [] hpreDeep).2 (by omega)
  obtain ⟨mdL, hmdL⟩ := Option.isSome_iff_exists.mp hsomeL
  obtain ⟨mdR, hmdR⟩ := Option.isSome_iff_exists.mp hsomeR
  have hgoodL := (travFns_good g fuel (rangeLen (r + step + step)
      (if step = -1 then max (r + step - 3) 0 else min (r + step + 3) ROWS) step)
      (r + step + step) step color (col + 1 - 1) [p2] [] (by simp)
      (by intro x hx; rw [List.mem_singleton] at hx; subst hx; exact hp2) (by simp)).1 mdL hmdL
  have hgoodR := (travFns_good g fuel (rangeLen (r + step + step)
      (if step = -1 then max (r + step - 3) 0 else min (r + step + 3) ROWS) step)
      (r + step + step) step color (col + 1 + 1) [p2] [] (by simp)
      (by intro x hx; rw [List.mem_singleton] at hx; subst hx; exact hp2) (by simp)).2 mdR hmdR
  have hnoL : mdL (r + step, col + 1) = none := by
    cases hmk : mdL (r + step, col + 1) with
    | none => rfl
    | some c =>
      exfalso
      have hf := hgoodL _ _ hmk
      rcases hs with hs | hs
      · have h2' : r + step ≤ r + step + step := hf.2.1 hs
        omega
      · have h2' : r + step + step ≤ r + step := hf.2.2.1 hs
        omega
  have hnoR : mdR (r + step, col + 1) = none := by
    cases hmk : mdR (r + step, col + 1) with
    | none => rfl
    | some c =>
      exfalso
      have hf := hgoodR _ _ hmk
      rcases hs with hs | hs
      · have h2' : r + step ≤ r + step + step := hf.2.1 hs
        omega
      · have h2' : r + step + step ≤ r + step := hf.2.2.1 hs
        omega
  refine ⟨mupdate (mupdate (minsert emptyMoves (r + step, col + 1)
    (if ([p1] : List Piece) ≠ [] then [p2] ++ [p1] else [p2])) mdL) mdR, ?_, ?_⟩
  · show loopRight g (travFns g fuel) 2 r step color col [p1] [] = _
    rw [e1, e2, hmdL, hmdR]
  · rw [mupdate_apply_none hnoR, mupdate_apply_none hnoL, minsert_apply, if_pos rfl]
    simp

theorem topFindsLeft (g : Grid) (color : Color) (a step c1 : Int) (p1 p2 : Piece) (d2 : Int)
    (hd2 : d2 = -1 ∨ d2 = 1) (hs : step = -1 ∨ step = 1)
    (hA : step = -1 → 4 ≤ a ∧ a ≤ 6) (hB : step = 1 → 1 ≤ a ∧ a ≤ 4)
    (hc1 : 0 ≤ c1 ∧ c1 ≤ 7) (hc1m : 0 ≤ c1 - 1 ∧ c1 - 1 ≤ 7)
    (hMid : 0 ≤ c1 - 1 + d2 ∧ c1 - 1 + d2 ≤ 7)
    (hLand : 0 ≤ c1 - 1 + 2 * d2 ∧ c1 - 1 + 2 * d2 ≤ 7)
    (hg1 : g a c1 = Cell.piece p1) (hp1 : ¬ p1.color = color)
    (hg2 : g (a + step) (c1 - 1) = Cell.empty)
    (hg3 : g (a + 2 * step) (c1 - 1 + d2) = Cell.piece p2) (hp2 : ¬ p2.color = color)
    (hg4 : g (a + 3 * step) (c1 - 1 + 2 * d2) = Cell.empty) :
    ∃ mT, (travFns g 8).left 2 a step color c1 [] [] = some mT ∧
      mT (a + 3 * step, c1 - 1 + 2 * d2) = some [p2, p1] := by
  have hrows : 0 ≤ a ∧ a ≤ 7 ∧ 0 ≤ a + step ∧ a + step ≤ 7 ∧
      0 ≤ a + step + step ∧ a + step + step ≤ 7 ∧
      0 ≤ a + step + step + step ∧ a + step + step + step ≤ 7 := by
    rcases hs with hs | hs
    · have h' := hA hs
      omega
    · have h' := hB hs
      omega
  have e1 := loopLeft_piece g (travFns g 7) 1 a step color c1 [] [] p1
    (by omega) (by omega) hg1 hp1
  have e2 := loopLeft_empty_rec g (travFns g 7) 0 (a + step) step color (c1 - 1) [] p1
    (by omega) (by omega) hg2
  rw [show (1 : Nat) + 1 = 2 from rfl] at e1
  rw [show (0 : Nat) + 1 = 1 from rfl] at e2
  have hI : rangeLen (a + step + step)
      (if step = -1 then max (a + step - 3) 0 else min (a + step + 3) ROWS) step = 2 := by
    rcases hs with hs | hs <;> subst hs
    · rw [if_pos rfl]
      unfold rangeLen
      rw [if_pos (by omega)]
      have h' := hA rfl
      omega
    · rw [if_neg (by omega)]
      unfold rangeLen
      rw [if_neg (by omega)]
      simp only [ROWS]
      have h' := hB rfl
      omega
  rw [hI] at e2
  have hpre7 : PreTrav 7 2 (a + step + step) step := by
    rcases hs with hs | hs
    · have h' := hA hs
      exact Or.inl ⟨hs, by omega, by omega, by omega⟩
    · have h' := hB hs
      exact Or.inr ⟨hs, by omega, by omega, by omega⟩
  have hfuelc : (step = -1 → ((a + step + step) + 1).toNat ≤ 6 + 1) ∧
      (step = 1 → (8 - (a + step + step)).toNat ≤ 6 + 1) := by
    constructor
    · intro hs'
      have h' := hA hs'
      omega
    · intro hs'
      have h' := hB hs'
      omega
  rcases hd2 with rfl | rfl
  · -- second jump back to the right of the first column direction: column d2 = -1
    have hg3' : g (a + step + step) (c1 - 1 - 1) = Cell.piece p2 := by
      rw [show (a + step + step : Int) = a + 2 * step from by ring,
        show (c1 - 1 - 1 : Int) = c1 - 1 + (-1) from by ring]
      exact hg3
    have hg4' : g (a + step + step + step) (c1 - 1 - 1 - 1) = Cell.empty := by
      rw [show (a + step + step + step : Int) = a + 3 * step from by ring,
        show (c1 - 1 - 1 - 1 : Int) = c1 - 1 + 2 * (-1) from by ring]
      exact hg4
    obtain ⟨msub, hmsub, hmsubk⟩ := chainFindsLeft g color 6 (a + step + step) step (c1 - 1 - 1)
      p1 p2 hs (by omega) (by omega) (by omega) (by omega) (by omega) (by omega)
      hg3' hp2 hg4' hfuelc
    have hsomeO := (travFns_some g 7 2 (a + step + step) step color (c1 - 1 + 1) [p1] []
      hpre7).2 (by omega)
    obtain ⟨mO, hmO⟩ := Option.isSome_iff_exists.mp hsomeO
    have hgoodO := (travFns_good g 7 2 (a + step + step) step color (c1 - 1 + 1) [p1] []
      (by simp) (by intro x hx; rw [List.mem_singleton] at hx; subst hx; exact hp1)
      (by simp)).2 mO hmO
    have hnoO : mO (a + step + step + step, c1 - 1 - 1 - 1) = none := by
      cases hmk : mO (a + step + step + step, c1 - 1 - 1 - 1) with
      | none => rfl
      | some c =>
        exfalso
        have hf := hgoodO _ _ hmk
        obtain ⟨_, _, _, _, _, _, _, _, _, hf10, hf11, _⟩ := hf
        rcases hs with hs | hs
        · have hx : (c1 - 1 + 1) - ((a + step + step) - (a + step + step + step))
              ≤ c1 - 1 - 1 - 1 ∧ c1 - 1 - 1 - 1
              ≤ (c1 - 1 + 1) + ((a + step + step) - (a + step + step + step)) := hf10 hs
          omega
        · have hx : (c1 - 1 + 1) - ((a + step + step + step) - (a + step + step))
              ≤ c1 - 1 - 1 - 1 ∧ c1 - 1 - 1 - 1
              ≤ (c1 - 1 + 1) + ((a + step + step + step) - (a + step + step)) := hf11 hs
          omega
    refine ⟨mupdate (mupdate (minsert emptyMoves (a + step, c1 - 1)
      (if ([] : List Piece) ≠ [] then [p1] ++ [] else [p1])) msub) mO, ?_, ?_⟩
    · show loopLeft g (travFns g 7) 2 a step color c1 [] [] = _
      rw [e1, e2, hmsub, hmO]
    · rw [show (a + 3 * step : Int) = a + step + step + step from by ring,
        show (c1 - 1 + 2 * (-1 : Int)) = c1 - 1 - 1 - 1 from by ring,
        mupdate_apply_none hnoO]
      exact mupdate_apply_right hmsubk
  · -- second jump in column direction d2 = 1
    have hg3' : g (a + step + step) (c1 - 1 + 1) = Cell.piece p2 := by
      rw [show (a + step + step : Int) = a + 2 * step from by ring]
      exact hg3
    have hg4' : g (a + step + step + step) (c1 - 1 + 1 + 1) = Cell.empty := by
      rw [show (a + step + step + step : Int) = a + 3 * step from by ring,
        show (c1 - 1 + 1 + 1 : Int) = c1 - 1 + 2 * 1 from by ring]
      exact hg4
    obtain ⟨msub, hmsub, hmsubk⟩ := chainFindsRight g color 6 (a + step + step) step (c1 - 1 + 1)
      p1 p2 hs (by omega) (by omega) (by omega) (by omega) (by omega) (by omega)
      hg3' hp2 hg4' hfuelc
    have hsomeO := (travFns_some g 7 2 (a + step + step) step color (c1 - 1 - 1) [p1] []
      hpre7).1 (by omega)
    obtain ⟨mO, hmO⟩ := Option.isSome_iff_exists.mp hsomeO
    have hgoodO := (travFns_good g 7 2 (a + step + step) step color (c1 - 1 - 1) [p1] []
      (by simp) (by intro x hx; rw [List.mem_singleton] at hx; subst hx; exact hp1)
      (by simp)).1 mO hmO
    have hnoO : mO (a + step + step + step, c1 - 1 + 1 + 1) = none := by
      cases hmk : mO (a + step + step + step, c1 - 1 + 1 + 1) with
      | none => rfl
      | some c =>
        exfalso
        have hf := hgoodO _ _ hmk
        obtain ⟨_, _, _, _, _, _, _, _, _, hf10, hf11, _⟩ := hf
        rcases hs with hs | hs
        · have hx : (c1 - 1 - 1) - ((a + step + step) - (a + step + step + step))
              ≤ c1 - 1 + 1 + 1 ∧ c1 - 1 + 1 + 1
              ≤ (c1 - 1 - 1) + ((a + step + step) - (a + step + step + step)) := hf10 hs
          omega
        · have hx : (c1 - 1 - 1) - ((a + step + step + step) - (a + step + step))
              ≤ c1 - 1 + 1 + 1 ∧ c1 - 1 + 1 + 1
              ≤ (c1 - 1 - 1) + ((a + step + step + step) - (a + step + step)) := hf11 hs
          omega
    refine ⟨mupdate (mupdate (minsert emptyMoves (a + step, c1 - 1)
      (if ([] : List Piece) ≠ [] then [p1] ++ [] else [p1])) mO) msub, ?_, ?_⟩
    · show loopLeft g (travFns g 7) 2 a step color c1 [] [] = _
      rw [e1, e2, hmO, hmsub]
    · rw [show (a + 3 * step : Int) = a + step + step + step from by ring,
        show (c1 - 1 + 2 * (1 : Int)) = c1 - 1 + 1 + 1 from by ring]
      exact mupdate_apply_right hmsubk

theorem topFindsRight (g : Grid) (color : Color) (a step c1 : Int) (p1 p2 : Piece) (d2 : Int)
    (hd2 : d2 = -1 ∨ d2 = 1) (hs : step = -1 ∨ step = 1)
    (hA : step = -1 → 4 ≤ a ∧ a ≤ 6) (hB : step = 1 → 1 ≤ a ∧ a ≤ 4)
    (hc1 : 0 ≤ c1 ∧ c1 ≤ 7) (hc1p : 0 ≤ c1 + 1 ∧ c1 + 1 ≤ 7)
    (hMid : 0 ≤ c1 + 1 + d2 ∧ c1 + 1 + d2 ≤ 7)
    (hLand : 0 ≤ c1 + 1 + 2 * d2 ∧ c1 + 1 + 2 * d2 ≤ 7)
    (hg1 : g a c1 = Cell.piece p1) (hp1 : ¬ p1.color = color)
    (hg2 : g (a + step) (c1 + 1) = Cell.empty)
    (hg3 : g (a + 2 * step) (c1 + 1 + d2) = Cell.piece p2) (hp2 : ¬ p2.color = color)
    (hg4 : g (a + 3 * step) (c1 + 1 + 2 * d2) = Cell.empty) :
    ∃ mT, (travFns g 8).right 2 a step color c1 [] [] = some mT ∧
      mT (a + 3 * step, c1 + 1 + 2 * d2) = some [p2, p1] := by
  have hrows : 0 ≤ a ∧ a ≤ 7 ∧ 0 ≤ a + step ∧ a + step ≤ 7 ∧
      0 ≤ a + step + step ∧ a + step + step ≤ 7 ∧
      0 ≤ a + step + step + step ∧ a + step + step + step ≤ 7 := by
    rcases hs with hs | hs
    · have h' := hA hs
      omega
    · have h' := hB hs
      omega
  have e1 := loopRight_piece g (travFns g 7) 1 a step color c1 [] [] p1
    (by simp only [COLS]; omega) (by omega) hg1 hp1
  have e2 := loopRight_empty_rec g (travFns g 7) 0 (a + step) step color (c1 + 1) [] p1
    (by simp only [COLS]; omega) (by omega) hg2
  rw [show (1 : Nat) + 1 = 2 from rfl] at e1
  rw [show (0 : Nat) + 1 = 1 from rfl] at e2
  have hI : rangeLen (a + step + step)
      (if step = -1 then max (a + step - 3) 0 else min (a + step + 3) ROWS) step = 2 := by
    rcases hs with hs | hs <;> subst hs
    · rw [if_pos rfl]
      unfold rangeLen
      rw [if_pos (by omega)]
      have h' := hA rfl
      omega
    · rw [if_neg (by omega)]
      unfold rangeLen
      rw [if_neg (by omega)]
      simp only [ROWS]
      have h' := hB rfl
      omega
  rw [hI] at e2
  have hpre7 : PreTrav 7 2 (a + step + step) step := by
    rcases hs with hs | hs
    · have h' := hA hs
      exact Or.inl ⟨hs, by omega, by omega, by omega⟩
    · have h' := hB hs
      exact Or.inr ⟨hs, by omega, by omega, by omega⟩
  have hfuelc : (step = -1 → ((a + step + step) + 1).toNat ≤ 6 + 1) ∧
      (step = 1 → (8 - (a + step + step)).toNat ≤ 6 + 1) := by
    constructor
    · intro hs'
      have h' := hA hs'
      omega
    · intro hs'
      have h' := hB hs'
      omega
  rcases hd2 with rfl | rfl
  · -- second jump in column direction d2 = -1
    have hg3' : g (a + step + step) (c1 + 1 - 1) = Cell.piece p2 := by
      rw [show (a + step + step : Int) = a + 2 * step from by ring,
        show (c1 + 1 - 1 : Int) = c1 + 1 + (-1) from by ring]
      exact hg3
    have hg4' : g (a + step + step + step) (c1 + 1 - 1 - 1) = Cell.empty := by
      rw [show (a + step + step + step : Int) = a + 3 * step from by ring,
        show (c1 + 1 - 1 - 1 : Int) = c1 + 1 + 2 * (-1) from by ring]
      exact hg4
    obtain ⟨msub, hmsub, hmsubk⟩ := chainFindsLeft g color 6 (a + step + step) step (c1 + 1 - 1)
      p1 p2 hs (by omega) (by omega) (by omega) (by omega) (by omega) (by omega)
      hg3' hp2 hg4' hfuelc
    have hsomeO := (travFns_some g 7 2 (a + step + step) step color (c1 + 1 + 1) [p1] []
      hpre7).2 (by omega)
    obtain ⟨mO, hmO⟩ := Option.isSome_iff_exists.mp hsomeO
    have hgoodO := (travFns_good g 7 2 (a + step + step) step color (c1 + 1 + 1) [p1] []
      (by simp) (by intro x hx; rw [List.mem_singleton] at hx; subst hx; exact hp1)
      (by simp)).2 mO hmO
    have hnoO : mO (a + step + step + step, c1 + 1 - 1 - 1) = none := by
      cases hmk : mO (a + step + step + step, c1 + 1 - 1 - 1) with
      | none => rfl
      | some c =>
        exfalso
        have hf := hgoodO _ _ hmk
        obtain ⟨_, _, _, _, _, _, _, _, _, hf10, hf11, _⟩ := hf
        rcases hs with hs | hs
        · have hx : (c1 + 1 + 1) - ((a + step + step) - (a + step + step + step))
              ≤ c1 + 1 - 1 - 1 ∧ c1 + 1 - 1 - 1
              ≤ (c1 + 1 + 1) + ((a + step + step) - (a + step + step + step)) := hf10 hs
          omega
        · have hx : (c1 + 1 + 1) - ((a + step + step + step) - (a + step + step))
              ≤ c1 + 1 - 1 - 1 ∧ c1 + 1 - 1 - 1
              ≤ (c1 + 1 + 1) + ((a + step + step + step) - (a + step + step)) := hf11 hs
          omega
    refine ⟨mupdate (mupdate (minsert emptyMoves (a + step, c1 + 1)
      (if ([] : List Piece) ≠ [] then [p1] ++ [] else [p1])) msub) mO, ?_, ?_⟩
    · show loopRight g (travFns g 7) 2 a step color c1 [] [] = _
      rw [e1, e2, hmsub, hmO]
    · rw [show (a + 3 * step : Int) = a + step + step + step from by ring,
        show (c1 + 1 + 2 * (-1 : Int)) = c1 + 1 - 1 - 1 from by ring,
        mupdate_apply_none hnoO]
      exact mupdate_apply_right hmsubk
  · -- second jump in column direction d2 = 1
    have hg3' : g (a + step + step) (c1 + 1 + 1) = Cell.piece p2 := by
      rw [show (a + step + step : Int) = a + 2 * step from by ring]
      exact hg3
    have hg4' : g (a + step + step + step) (c1 + 1 + 1 + 1) = Cell.empty := by
      rw [show (a + step + step + step : Int) = a + 3 * step from by ring,
        show (c1 + 1 + 1 + 1 : Int) = c1 + 1 + 2 * 1 from by ring]
      exact hg4
    obtain ⟨msub, hmsub, hmsubk⟩ := chainFindsRight g color 6 (a + step + step) step (c1 + 1 + 1)
      p1 p2 hs (by omega) (by omega) (by omega) (by omega) (by omega) (by omega)
      hg3' hp2 hg4' hfuelc
    have hsomeO := (travFns_some g 7 2 (a + step + step) step color (c1 + 1 - 1) [p1] []
      hpre7).1 (by omega)
    obtain ⟨mO, hmO⟩ := Option.isSome_iff_exists.mp hsomeO
    have hgoodO := (travFns_good g 7 2 (a + step + step) step color (c1 + 1 - 1) [p1] []
      (by simp) (by intro x hx; rw [List.mem_singleton] at hx; subst hx; exact hp1)
      (by simp)).1 mO hmO
    have hnoO : mO (a + step + step + step, c1 + 1 + 1 + 1) = none := by
      cases hmk : mO (a + step + step + step, c1 + 1 + 1 + 1) with
      | none => rfl
      | some c =>
        exfalso
        have hf := hgoodO _ _ hmk
        obtain ⟨_, _, _, _, _, _, _, _, _, hf10, hf11, _⟩ := hf
        rcases hs with hs | hs
        · have hx : (c1 + 1 - 1) - ((a + step + step) - (a + step + step + step))
              ≤ c1 + 1 + 1 + 1 ∧ c1 + 1 + 1 + 1
              ≤ (c1 + 1 - 1) + ((a + step + step) - (a + step + step + step)) := hf10 hs
          omega
        · have hx : (c1 + 1 - 1) - ((a + step + step + step) - (a + step + step))
              ≤ c1 + 1 + 1 + 1 ∧ c1 + 1 + 1 + 1
              ≤ (c1 + 1 - 1) + ((a + step + step + step) - (a + step + step)) := hf11 hs
          omega
    refine ⟨mupdate (mupdate (minsert emptyMoves (a + step, c1 + 1)
      (if ([] : List Piece) ≠ [] then [p1] ++ [] else [p1])) mO) msub, ?_, ?_⟩
    · show loopRight g (travFns g 7) 2 a step color c1 [] [] = _
      rw [e1, e2, hmO, hmsub]
    · rw [show (a + 3 * step : Int) = a + step + step + step from by ring,
        show (c1 + 1 + 2 * (1 : Int)) = c1 + 1 + 1 + 1 from by ring]
      exact mupdate_apply_right hmsubk

theorem itersUp_le_two (row : Int) :
    ((rangeLen (row - 1) (max (row - 3) (-1)) (-1) : Nat) : Int) ≤ 2 := by
  unfold rangeLen
  rw [if_pos (by omega)]
  omega

theorem itersDown_le_two (row : Int) :
    ((rangeLen (row + 1) (min (row + 3) ROWS) 1 : Nat) : Int) ≤ 2 := by
  unfold rangeLen
  rw [if_neg (by omega)]
  simp only [ROWS]
  omega

theorem itersUp_eq_two (row : Int) (h : 2 ≤ row) :
    rangeLen (row - 1) (max (row - 3) (-1)) (-1) = 2 := by
  unfold rangeLen
  rw [if_pos (by omega)]
  omega

theorem itersDown_eq_two (row : Int) (h : row ≤ 5) :
    rangeLen (row + 1) (min (row + 3) ROWS) 1 = 2 := by
  unfold rangeLen
  rw [if_neg (by omega)]
  simp only [ROWS]
  omega

theorem gvm_none_elim (b : Board) (p : Piece) {m : MoveMap}
    (h : b.get_valid_moves p = some m) (k : Int × Int) (hnone : m k = none) :
    ((p.color = PLAYER_COLOR_BOTTOM ∨ p.king = true) →
      (∀ mm, b._traverse_left 8 (p.row - 1) (max (p.row - 3) (-1)) (-1) p.color (p.col - 1) []
          = some mm → mm k = none) ∧
      (∀ mm, b._traverse_right 8 (p.row - 1) (max (p.row - 3) (-1)) (-1) p.color (p.col + 1) []
          = some mm → mm k = none)) ∧
    ((p.color = PLAYER_COLOR_TOP ∨ p.king = true) →
      (∀ mm, b._traverse_left 8 (p.row + 1) (min (p.row + 3) ROWS) 1 p.color (p.col - 1) []
          = some mm → mm k = none) ∧
      (∀ mm, b._traverse_right 8 (p.row + 1) (min (p.row + 3) ROWS) 1 p.color (p.col + 1) []
          = some mm → mm k = none)) := by
  by_cases h1 : p.color = PLAYER_COLOR_BOTTOM ∨ p.king = true
  · by_cases h2 : p.color = PLAYER_COLOR_TOP ∨ p.king = true
    · simp only [Board.get_valid_moves, if_pos h1, if_pos h2] at h
      revert h
      cases hUL : b._traverse_left 8 (p.row - 1) (max (p.row - 3) (-1)) (-1) p.color
          (p.col - 1) [] with
      | none => intro h; exact Option.noConfusion h
      | some mUL =>
        cases hUR : b._traverse_right 8 (p.row - 1) (max (p.row - 3) (-1)) (-1) p.color
            (p.col + 1) [] with
        | none => intro h; exact Option.noConfusion h
        | some mUR =>
          cases hDL : b._traverse_left 8 (p.row + 1) (min (p.row + 3) ROWS) 1 p.color
              (p.col - 1) [] with
          | none => intro h; exact Option.noConfusion h
          | some mDL =>
            cases hDR : b._traverse_right 8 (p.row + 1) (min (p.row + 3) ROWS) 1 p.color
                (p.col + 1) [] with
            | none => intro h; exact Option.noConfusion h
            | some mDR =>
              intro h
              obtain rfl : mupdate (mupdate (mupdate (mupdate emptyMoves mUL) mUR) mDL) mDR
                  = m := Option.some.inj h
              obtain ⟨h3, h4⟩ := mupdate_none_iff.mp hnone
              obtain ⟨h5, h6⟩ := mupdate_none_iff.mp h3
              obtain ⟨h7, h8⟩ := mupdate_none_iff.mp h5
              constructor
              · intro _
                constructor
                · intro mm hmm
                  obtain rfl : mUL = mm := Option.some.inj hmm
                  exact (mupdate_none_iff.mp h7).2
                · intro mm hmm
                  obtain rfl : mUR = mm := Option.some.inj hmm
                  exact h8
              · intro _
                constructor
                · intro mm hmm
                  obtain rfl : mDL = mm := Option.some.inj hmm
                  exact h6
                · intro mm hmm
                  obtain rfl : mDR = mm := Option.some.inj hmm
                  exact h4
    · simp only [Board.get_valid_moves, if_pos h1, if_neg h2] at h
      revert h
      cases hUL : b._traverse_left 8 (p.row - 1) (max (p.row - 3) (-1)) (-1) p.color
          (p.col - 1) [] with
      | none => intro h; exact Option.noConfusion h
      | some mUL =>
        cases hUR : b._traverse_right 8 (p.row - 1) (max (p.row - 3) (-1)) (-1) p.color
            (p.col + 1) [] with
        | none => intro h; exact Option.noConfusion h
        | some mUR =>
          intro h
          obtain rfl : mupdate (mupdate emptyMoves mUL) mUR = m := Option.some.inj h
          obtain ⟨h3, h4⟩ := mupdate_none_iff.mp hnone
          obtain ⟨h5, h6⟩ := mupdate_none_iff.mp h3
          constructor
          · intro _
            constructor
            · intro mm hmm
              obtain rfl : mUL = mm := Option.some.inj hmm
              exact h6
            · intro mm hmm
              obtain rfl : mUR = mm := Option.some.inj hmm
              exact h4
          · intro hcond
            exact absurd hcond h2
  · by_cases h2 : p.color = PLAYER_COLOR_TOP ∨ p.king = true
    · simp only [Board.get_valid_moves, if_neg h1, if_pos h2] at h
      revert h
      cases hDL : b._traverse_left 8 (p.row + 1) (min (p.row + 3) ROWS) 1 p.color
          (p.col - 1) [] with
      | none => intro h; exact Option.noConfusion h
      | some mDL =>
        cases hDR : b._traverse_right 8 (p.row + 1) (min (p.row + 3) ROWS) 1 p.color
            (p.col + 1) [] with
        | none => intro h; exact Option.noConfusion h
        | some mDR =>
          intro h
          obtain rfl : mupdate (mupdate emptyMoves mDL) mDR = m := Option.some.inj h
          obtain ⟨h3, h4⟩ := mupdate_none_iff.mp hnone
          obtain ⟨h5, h6⟩ := mupdate_none_iff.mp h3
          constructor
          · intro hcond
            exact absurd hcond h1
          · intro _
            constructor
            · intro mm hmm
              obtain rfl : mDL = mm := Option.some.inj hmm
              exact h6
            · intro mm hmm
              obtain rfl : mDR = mm := Option.some.inj hmm
              exact h4
    · constructor
      · intro hcond
        exact absurd hcond h1
      · intro hcond
        exact absurd hcond h2

theorem farKeyChar (b : Board) (p : Piece) {m : MoveMap} (hm : b.get_valid_moves p = some m)
    (k : Int × Int) (caps : List Piece) (hmk : m k = some caps)
    (hfar : k.1 ≤ p.row - 3 ∨ p.row + 3 ≤ k.1) :
    caps.length = 2 ∧ ∀ q ∈ caps, q.color ≠ p.color := by
  rcases gvm_mem b p hm k caps hmk with ⟨_, col, _, hf⟩ | ⟨_, col, _, hf⟩
  · obtain ⟨_, hf2, _, _, hf5, _, _, _, _, _, _, hf12, _⟩ := hf
    refine ⟨?_, hf5⟩
    have h2 := hf2 rfl
    apply hf12 rfl rfl (itersUp_le_two p.row)
    rcases hfar with hfar | hfar <;> omega
  · obtain ⟨_, _, hf3, _, hf5, _, _, _, _, _, _, _, _, hf14, _⟩ := hf
    refine ⟨?_, hf5⟩
    have h3 := hf3 rfl
    apply hf14 rfl rfl (itersDown_le_two p.row)
    rcases hfar with hfar | hfar <;> omega

/-! ### Claim C1 -/

/-- C1 counterexample: red at `(4,4)` has two consecutive upward jumps — over
`(3,3)` onto the empty `(2,2)`, whose landing square is adjacent to the
capturable `(1,1)` with the empty `(0,0)` beyond it — yet `get_valid_moves`
does not return the two-jump destination `(0,0)` at all. -/
theorem claimC1_counterexample :
    clipBoard.board 3 3 = Cell.piece ⟨3, 3, Color.top, false⟩ ∧
    clipBoard.board 2 2 = Cell.empty ∧
    clipBoard.board 1 1 = Cell.piece ⟨1, 1, Color.top, false⟩ ∧
    clipBoard.board 0 0 = Cell.empty ∧
    clipPiece.color = PLAYER_COLOR_BOTTOM ∧ clipPiece.king = false ∧
    clipPiece.row = 4 ∧ clipPiece.col = 4 ∧
    movesAt clipBoard clipPiece (0, 0) = none := by decide

/-- C1 amended: for every board and piece with two consecutive available jumps in
an allowed travel direction, `get_valid_moves` returns the destination two jumps
away with a capture list of two opponent pieces (the pair of one such route;
when two routes share the destination the later-traversed route's pair is kept)
— except when the second upward jump would land on row 0, where the destination
is missing entirely (see the counterexample; the upward recursion window is
clipped at `max(r-3, 0)`). -/
theorem claimC1 (b : Board) (p : Piece) (p1 p2 : Piece) (s d1 d2 : Int)
    (hs : s = -1 ∨ s = 1) (hd1 : d1 = -1 ∨ d1 = 1) (hd2 : d2 = -1 ∨ d2 = 1)
    (hdirUp : s = -1 → p.color = PLAYER_COLOR_BOTTOM ∨ p.king = true)
    (hdirDn : s = 1 → p.color = PLAYER_COLOR_TOP ∨ p.king = true)
    (hr0 : 0 ≤ p.row) (hr7 : p.row ≤ 7)
    (hdest1 : 1 ≤ p.row + 4 * s) (hdest7 : p.row + 4 * s ≤ 7)
    (hc0 : 0 ≤ p.col ∧ p.col ≤ 7)
    (hcA : 0 ≤ p.col + d1 ∧ p.col + d1 ≤ 7)
    (hcB : 0 ≤ p.col + 2 * d1 ∧ p.col + 2 * d1 ≤ 7)
    (hcC : 0 ≤ p.col + 2 * d1 + d2 ∧ p.col + 2 * d1 + d2 ≤ 7)
    (hcD : 0 ≤ p.col + 2 * d1 + 2 * d2 ∧ p.col + 2 * d1 + 2 * d2 ≤ 7)
    (hg1 : b.board (p.row + s) (p.col + d1) = Cell.piece p1) (hp1 : p1.color ≠ p.color)
    (hg2 : b.board (p.row + 2 * s) (p.col + 2 * d1) = Cell.empty)
    (hg3 : b.board (p.row + 3 * s) (p.col + 2 * d1 + d2) = Cell.piece p2)
    (hp2 : p2.color ≠ p.color)
    (hg4 : b.board (p.row + 4 * s) (p.col + 2 * d1 + 2 * d2) = Cell.empty) :
    ∃ caps, movesAt b p (p.row + 4 * s, p.col + 2 * d1 + 2 * d2) = some caps ∧
      caps.length = 2 ∧ ∀ q ∈ caps, q.color ≠ p.color := by
  obtain ⟨m, hm⟩ := Option.isSome_iff_exists.mp (gvm_isSome b p hr0 hr7 hc0.1 hc0.2)
  have hA : s = -1 → 4 ≤ p.row + s ∧ p.row + s ≤ 6 := by intro hs'; omega
  have hB : s = 1 → 1 ≤ p.row + s ∧ p.row + s ≤ 4 := by intro hs'; omega
  rcases hd1 with rfl | rfl
  · -- first jump towards the smaller column (top-level left traversal)
    have hg1' : b.board (p.row + s) (p.col - 1) = Cell.piece p1 := hg1
    have hg2' : b.board (p.row + s + s) (p.col - 1 - 1) = Cell.empty := by
      rw [show (p.row + s + s : Int) = p.row + 2 * s from by ring,
        show (p.col - 1 - 1 : Int) = p.col + 2 * (-1) from by ring]
      exact hg2
    have hg3' : b.board (p.row + s + 2 * s) (p.col - 1 - 1 + d2) = Cell.piece p2 := by
      rw [show (p.row + s + 2 * s : Int) = p.row + 3 * s from by ring,
        show (p.col - 1 - 1 + d2 : Int) = p.col + 2 * (-1) + d2 from by ring]
      exact hg3
    have hg4' : b.board (p.row + s + 3 * s) (p.col - 1 - 1 + 2 * d2) = Cell.empty := by
      rw [show (p.row + s + 3 * s : Int) = p.row + 4 * s from by ring,
        show (p.col - 1 - 1 + 2 * d2 : Int) = p.col + 2 * (-1) + 2 * d2 from by ring]
      exact hg4
    obtain ⟨mT, hmT, hmTk⟩ := topFindsLeft b.board p.color (p.row + s) s (p.col - 1) p1 p2 d2
      hd2 hs hA hB (by omega) (by omega) (by omega) (by omega)
      hg1' (by intro e; exact hp1 e) hg2' hg3' (by intro e; exact hp2 e) hg4'
    have hmTk' : mT (p.row + 4 * s, p.col + 2 * (-1) + 2 * d2) = some [p2, p1] := by
      rw [show (p.row + 4 * s : Int) = p.row + s + 3 * s from by ring,
        show (p.col + 2 * (-1 : Int) + 2 * d2) = p.col - 1 - 1 + 2 * d2 from by ring]
      exact hmTk
    rcases hs with rfl | rfl
    · -- upward group, left call
      have hcomp : b._traverse_left 8 (p.row - 1) (max (p.row - 3) (-1)) (-1) p.color
          (p.col - 1) [] = some mT := by
        unfold Board._traverse_left
        rw [itersUp_eq_two p.row (by omega)]
        exact hmT
      cases hmk : m (p.row + 4 * (-1), p.col + 2 * (-1) + 2 * d2) with
      | none =>
        exfalso
        have hz := ((gvm_none_elim b p hm _ hmk).1 (hdirUp rfl)).1 mT hcomp
        rw [hz] at hmTk'
        exact Option.noConfusion hmTk'
      | some caps =>
        have hchar := farKeyChar b p hm _ caps hmk
          (Or.inl (show p.row + 4 * (-1 : Int) ≤ p.row - 3 by omega))
        exact ⟨caps, movesAt_eq_some.mpr ⟨m, hm, hmk⟩, hchar.1, hchar.2⟩
    · -- downward group, left call
      have hcomp : b._traverse_left 8 (p.row + 1) (min (p.row + 3) ROWS) 1 p.color
          (p.col - 1) [] = some mT := by
        unfold Board._traverse_left
        rw [itersDown_eq_two p.row (by omega)]
        exact hmT
      cases hmk : m (p.row + 4 * 1, p.col + 2 * (-1) + 2 * d2) with
      | none =>
        exfalso
        have hz := ((gvm_none_elim b p hm _ hmk).2 (hdirDn rfl)).1 mT hcomp
        rw [hz] at hmTk'
        exact Option.noConfusion hmTk'
      | some caps =>
        have hchar := farKeyChar b p hm _ caps hmk
          (Or.inr (show p.row + 3 ≤ p.row + 4 * (1 : Int) by omega))
        exact ⟨caps, movesAt_eq_some.mpr ⟨m, hm, hmk⟩, hchar.1, hchar.2⟩
  · -- first jump towards the larger column (top-level right traversal)
    have hg1' : b.board (p.row + s) (p.col + 1) = Cell.piece p1 := hg1
    have hg2' : b.board (p.row + s + s) (p.col + 1 + 1) = Cell.empty := by
      rw [show (p.row + s + s : Int) = p.row + 2 * s from by ring,
        show (p.col + 1 + 1 : Int) = p.col + 2 * 1 from by ring]
      exact hg2
    have hg3' : b.board (p.row + s + 2 * s) (p.col + 1 + 1 + d2) = Cell.piece p2 := by
      rw [show (p.row + s + 2 * s : Int) = p.row + 3 * s from by ring,
        show (p.col + 1 + 1 + d2 : Int) = p.col + 2 * 1 + d2 from by ring]
      exact hg3
    have hg4' : b.board (p.row + s + 3 * s) (p.col + 1 + 1 + 2 * d2) = Cell.empty := by
      rw [show (p.row + s + 3 * s : Int) = p.row + 4 * s from by ring,
        show (p.col + 1 + 1 + 2 * d2 : Int) = p.col + 2 * 1 + 2 * d2 from by ring]
      exact hg4
    obtain ⟨mT, hmT, hmTk⟩ := topFindsRight b.board p.color (p.row + s) s (p.col + 1) p1 p2 d2
      hd2 hs hA hB (by omega) (by omega) (by omega) (by omega)
      hg1' (by intro e; exact hp1 e) hg2' hg3' (by intro e; exact hp2 e) hg4'
    have hmTk' : mT (p.row + 4 * s, p.col + 2 * 1 + 2 * d2) = some [p2, p1] := by
      rw [show (p.row + 4 * s : Int) = p.row + s + 3 * s from by ring,
        show (p.col + 2 * (1 : Int) + 2 * d2) = p.col + 1 + 1 + 2 * d2 from by ring]
      exact hmTk
    rcases hs with rfl | rfl
    · have hcomp : b._traverse_right 8 (p.row - 1) (max (p.row - 3) (-1)) (-1) p.color
          (p.col + 1) [] = some mT := by
        unfold Board._traverse_right
        rw [itersUp_eq_two p.row (by omega)]
        exact hmT
      cases hmk : m (p.row + 4 * (-1), p.col + 2 * 1 + 2 * d2) with
      | none =>
        exfalso
        have hz := ((gvm_none_elim b p hm _ hmk).1 (hdirUp rfl)).2 mT hcomp
        rw [hz] at hmTk'
        exact Option.noConfusion hmTk'
      | some caps =>
        have hchar := farKeyChar b p hm _ caps hmk
          (Or.inl (show p.row + 4 * (-1 : Int) ≤ p.row - 3 by omega))
        exact ⟨caps, movesAt_eq_some.mpr ⟨m, hm, hmk⟩, hchar.1, hchar.2⟩
    · have hcomp : b._traverse_right 8 (p.row + 1) (min (p.row + 3) ROWS) 1 p.color
          (p.col + 1) [] = some mT := by
        unfold Board._traverse_right
        rw [itersDown_eq_two p.row (by omega)]
        exact hmT
      cases hmk : m (p.row + 4 * 1, p.col + 2 * 1 + 2 * d2) with
      | none =>
        exfalso
        have hz := ((gvm_none_elim b p hm _ hmk).2 (hdirDn rfl)).2 mT hcomp
        rw [hz] at hmTk'
        exact Option.noConfusion hmTk'
      | some caps =>
        have hchar := farKeyChar b p hm _ caps hmk
          (Or.inr (show p.row + 3 ≤ p.row + 4 * (1 : Int) by omega))
        exact ⟨caps, movesAt_eq_some.mpr ⟨m, hm, hmk⟩, hchar.1, hchar.2⟩

theorem claimC1_witness :
    ∃ caps, movesAt c3Board c3Piece (c3Piece.row + 4 * (-1), c3Piece.col + 2 * (-1) + 2 * (-1))
        = some caps ∧ caps.length = 2 ∧ ∀ q ∈ caps, q.color ≠ c3Piece.color :=
  claimC1 c3Board c3Piece w1 w2 (-1) (-1) (-1)
    (Or.inl rfl) (Or.inl rfl) (Or.inl rfl)
    (fun _ => Or.inl (by decide)) (fun h => absurd h (by decide))
    (by decide) (by decide) (by decide) (by decide)
    (by decide) (by decide) (by decide) (by decide) (by decide)
    (by decide) (by decide) (by decide) (by decide) (by decide) (by decide)

/-! ### Claim C2 -/

/-- C2 counterexample: on a board whose bottom color owns one king, `evaluate()`
returns `-1/2` while the spec's literal formula (with its extra
`- 0.5*(bottom_kings)` term) gives `-1`. -/
theorem claimC2_counterexample : c2Board.evaluate ≠ specEvalFormula c2Board := by
  norm_num [Board.evaluate, specEvalFormula, c2Board]

/-- C2 amended: `evaluate()` returns
`(top_live_count - bottom_live_count) + 0.5*(top_kings - bottom_kings)` — the
spec's own "conceptual" formula, without the literal formula's extra
`- 0.5*(bottom_kings)` term; equivalently the literal formula overshoots the
code by exactly `0.5*(bottom_kings)`. -/
theorem claimC2 (b : Board) :
    b.evaluate = ((b.white_left : ℚ) - (b.red_left : ℚ))
        + (1 / 2) * ((b.white_kings : ℚ) - (b.red_kings : ℚ)) ∧
    b.evaluate = specEvalFormula b + (1 / 2) * (b.red_kings : ℚ) := by
  unfold Board.evaluate specEvalFormula
  constructor <;> ring

/-! ### Claim C4 -/

/-- C4: every `move` landing on row 0 or row `ROWS-1` sets the piece's king flag
and increments the mover's color king counter (`white_kings` for the top color,
`red_kings` otherwise) by exactly one, leaving the other king counter unchanged —
unconditionally, even if the piece was already a king. -/
theorem claimC4 (b : Board) (p : Piece) (row col : Int) (h : row = 0 ∨ row = ROWS - 1) :
    ((b.move p row col).2.king = true) ∧
    (p.color = PLAYER_COLOR_TOP →
      (b.move p row col).1.white_kings = b.white_kings + 1 ∧
      (b.move p row col).1.red_kings = b.red_kings) ∧
    (¬ p.color = PLAYER_COLOR_TOP →
      (b.move p row col).1.red_kings = b.red_kings + 1 ∧
      (b.move p row col).1.white_kings = b.white_kings) := by
  have hpr : row = ROWS - 1 ∨ row = 0 := h.symm
  by_cases hc : p.color = PLAYER_COLOR_TOP
  · simp [Board.move, Piece.move, Piece.make_king, if_pos hpr, hc]
  · simp [Board.move, Piece.move, Piece.make_king, if_pos hpr, hc]

theorem claimC4_witness :
    ((initialBoard.move ⟨5, 0, Color.bottom, true⟩ 0 1).2.king = true) ∧
    (initialBoard.move ⟨5, 0, Color.bottom, true⟩ 0 1).1.red_kings
        = initialBoard.red_kings + 1 ∧
    (initialBoard.move ⟨5, 0, Color.bottom, true⟩ 0 1).1.white_kings
        = initialBoard.white_kings :=
  have h := claimC4 initialBoard ⟨5, 0, Color.bottom, true⟩ 0 1 (Or.inl rfl)
  ⟨h.1, (h.2.2 (by decide)).1, (h.2.2 (by decide)).2⟩

/-! ### Claim C7 -/

theorem removeOne_board (b : Board) (p : Piece) :
    (removeOne b p).board = gridSet b.board p.row p.col Cell.empty := by
  unfold removeOne
  split <;> rfl

theorem removeOne_red (b : Board) (p : Piece) :
    (removeOne b p).red_left
      = if p.color = PLAYER_COLOR_BOTTOM then b.red_left - 1 else b.red_left := by
  unfold removeOne
  split <;> rfl

theorem removeOne_white (b : Board) (p : Piece) :
    (removeOne b p).white_left
      = if p.color = PLAYER_COLOR_BOTTOM then b.white_left else b.white_left - 1 := by
  unfold removeOne
  split <;> rfl

theorem remove_preserves_empty :
    ∀ (pieces : List Piece) (b : Board) (x y : Int),
      b.board x y = Cell.empty → (b.remove pieces).board x y = Cell.empty := by
  intro pieces
  induction pieces with
  | nil => intro b x y h; exact h
  | cons p t ih =>
    intro b x y h
    show ((removeOne b p).remove t).board x y = Cell.empty
    apply ih
    rw [removeOne_board]
    unfold gridSet
    split
    · rfl
    · exact h

theorem remove_clears :
    ∀ (pieces : List Piece) (b : Board), ∀ p ∈ pieces,
      (b.remove pieces).board p.row p.col = Cell.empty := by
  intro pieces
  induction pieces with
  | nil => intro b p hp; cases hp
  | cons q t ih =>
    intro b p hp
    rcases List.mem_cons.mp hp with rfl | hpt
    · show ((removeOne b p).remove t).board p.row p.col = Cell.empty
      apply remove_preserves_empty
      rw [removeOne_board]
      unfold gridSet
      rw [if_pos rfl]
    · exact ih (removeOne b q) p hpt

theorem remove_red_count :
    ∀ (pieces : List Piece) (b : Board),
      (b.remove pieces).red_left
        = b.red_left - pieces.countP (fun p => decide (p.color = PLAYER_COLOR_BOTTOM)) := by
  intro pieces
  induction pieces with
  | nil => intro b; simp [Board.remove]
  | cons p t ih =>
    intro b
    show ((removeOne b p).remove t).red_left = _
    rw [ih, removeOne_red, List.countP_cons]
    by_cases hc : p.color = PLAYER_COLOR_BOTTOM <;> simp [hc] <;> omega

theorem remove_white_count :
    ∀ (pieces : List Piece) (b : Board),
      (b.remove pieces).white_left
        = b.white_left - pieces.countP (fun p => decide (¬ p.color = PLAYER_COLOR_BOTTOM)) := by
  intro pieces
  induction pieces with
  | nil => intro b; simp [Board.remove]
  | cons p t ih =>
    intro b
    show ((removeOne b p).remove t).white_left = _
    rw [ih, removeOne_white, List.countP_cons]
    by_cases hc : p.color = PLAYER_COLOR_BOTTOM <;> simp [hc] <;> omega

/-- C7: removing pieces that are live at their recorded cells empties each of
those grid cells and decrements the matching live-piece counter by exactly one
per removed piece (`red_left` for bottom-color pieces, `white_left` for the
rest), and `winner()` returns the top color when the bottom count is `≤ 0`,
else the bottom color when the top count is `≤ 0`, else no winner. -/
theorem claimC7 :
    (∀ (b : Board) (pieces : List Piece),
      pieces.Nodup →
      (∀ p ∈ pieces, b.board p.row p.col = Cell.piece p) →
      (∀ p ∈ pieces, (b.remove pieces).board p.row p.col = Cell.empty) ∧
      (b.remove pieces).red_left
          = b.red_left - pieces.countP (fun p => decide (p.color = PLAYER_COLOR_BOTTOM)) ∧
      (b.remove pieces).white_left
          = b.white_left - pieces.countP (fun p => decide (¬ p.color = PLAYER_COLOR_BOTTOM))) ∧
    (∀ b : Board,
      (b.red_left ≤ 0 → b.winner = some PLAYER_COLOR_TOP) ∧
      (¬ b.red_left ≤ 0 → b.white_left ≤ 0 → b.winner = some PLAYER_COLOR_BOTTOM) ∧
      (¬ b.red_left ≤ 0 → ¬ b.white_left ≤ 0 → b.winner = none)) := by
  constructor
  · intro b pieces _ _
    exact ⟨fun p hp => remove_clears pieces b p hp,
      remove_red_count pieces b, remove_white_count pieces b⟩
  · intro b
    refine ⟨?_, ?_, ?_⟩
    · intro h1
      unfold Board.winner
      rw [if_pos h1]
    · intro h1 h2
      unfold Board.winner
      rw [if_neg h1, if_pos h2]
    · intro h1 h2
      unfold Board.winner
      rw [if_neg h1, if_neg h2]

theorem claimC7_witness :
    (initialBoard.remove [⟨5, 0, Color.bottom, false⟩]).board (5 : Int) (0 : Int)
        = Cell.empty ∧
    (initialBoard.remove [⟨5, 0, Color.bottom, false⟩]).red_left
        = initialBoard.red_left
          - [(⟨5, 0, Color.bottom, false⟩ : Piece)].countP
              (fun p => decide (p.color = PLAYER_COLOR_BOTTOM)) ∧
    initialBoard.winner = none :=
  have h := claimC7.1 initialBoard [⟨5, 0, Color.bottom, false⟩] (by decide) (by decide)
  ⟨h.1 ⟨5, 0, Color.bottom, false⟩ (by decide), h.2.1,
    (claimC7.2 initialBoard).2.2 (by decide) (by decide)⟩

/-! ### Claim C8 -/

theorem countP_update (l : List (Int × Int)) (f f' : Int × Int → Bool) (x0 : Int × Int)
    (hag : ∀ x ∈ l, x ≠ x0 → f' x = f x) (hnd : l.Nodup) (hx : x0 ∈ l) :
    l.countP f' + (if f x0 then 1 else 0) = l.countP f + (if f' x0 then 1 else 0) := by
  induction l with
  | nil => cases hx
  | cons a t ih =>
    rw [List.countP_cons, List.countP_cons]
    rw [List.nodup_cons] at hnd
    rcases List.mem_cons.mp hx with rfl | hxt
    · have ht : ∀ x ∈ t, f' x = f x := by
        intro x hxt'
        exact hag x (List.mem_cons_of_mem _ hxt') (fun e => hnd.1 (e ▸ hxt'))
      have hcount : t.countP f' = t.countP f :=
        List.countP_congr (fun x hx => by rw [ht x hx])
      rw [hcount]
      omega
    · have ha : f' a = f a := by
        refine hag a (List.mem_cons_self _ _) ?_
        intro e
        exact hnd.1 (e ▸ hxt)
      have := ih (fun x hx' hne => hag x (List.mem_cons_of_mem _ hx') hne) hnd.2 hxt
      rw [ha]
      omega

theorem cellList_nodup : cellList.Nodup := by decide

theorem cellColorB_empty (color : Color) : cellColorB Cell.empty color = false := rfl

theorem cellColorB_piece (p : Piece) (color : Color) :
    cellColorB (Cell.piece p) color = decide (p.color = color) := rfl

theorem mem_cellList {r c : Int} (h0 : 0 ≤ r) (h7 : r ≤ 7) (hc0 : 0 ≤ c) (hc7 : c ≤ 7) :
    (r, c) ∈ cellList := by
  interval_cases r <;> interval_cases c <;> decide

theorem gridCount_set (g : Grid) (r c : Int) (v : Cell) (color : Color)
    (h0 : 0 ≤ r) (h7 : r ≤ 7) (hc0 : 0 ≤ c) (hc7 : c ≤ 7) :
    gridCount (gridSet g r c v) color + (if cellColorB (g r c) color then 1 else 0)
      = gridCount g color + (if cellColorB v color then 1 else 0) := by
  unfold gridCount
  have h := countP_update cellList
    (fun x => cellColorB (g x.1 x.2) color)
    (fun x => cellColorB (gridSet g r c v x.1 x.2) color)
    (r, c) ?_ cellList_nodup (mem_cellList h0 h7 hc0 hc7)
  · have e1 : cellColorB (gridSet g r c v r c) color = cellColorB v color := by
      unfold gridSet
      rw [if_pos rfl]
    have h' : List.countP (fun x => cellColorB (gridSet g r c v x.1 x.2) color) cellList
          + (if cellColorB (g r c) color then 1 else 0)
        = List.countP (fun x => cellColorB (g x.1 x.2) color) cellList
          + (if cellColorB (gridSet g r c v r c) color then 1 else 0) := h
    rw [e1] at h'
    exact h'
  · intro x hx hne
    show cellColorB (if ((x.1, x.2) : Int × Int) = (r, c) then v else g x.1 x.2) color
        = cellColorB (g x.1 x.2) color
    rw [show ((x.1, x.2) : Int × Int) = x from rfl, if_neg hne]

theorem unique_of_cellOk (b : Board) (h : ∀ r c : Fin 8, cellOk b r c = true) :
    ∀ r c r' c' : Fin 8, ∀ p : Piece,
      b.board (r.val : Int) (c.val : Int) = Cell.piece p →
      b.board (r'.val : Int) (c'.val : Int) = Cell.piece p → r = r' ∧ c = c' := by
  intro r c r' c' p h1 h2
  have e1 := h r c
  have e2 := h r' c'
  unfold cellOk at e1 e2
  rw [h1] at e1
  rw [h2] at e2
  have e1' : p.row = (r.val : Int) ∧ p.col = (c.val : Int) := of_decide_eq_true e1
  have e2' : p.row = (r'.val : Int) ∧ p.col = (c'.val : Int) := of_decide_eq_true e2
  constructor
  · apply Fin.ext
    have a1 := e1'.1
    have a2 := e2'.1
    omega
  · apply Fin.ext
    have a1 := e1'.2
    have a2 := e2'.2
    omega

theorem invariant_initial : Invariant initialBoard :=
  ⟨by decide, unique_of_cellOk _ (by decide), by decide, by decide⟩

theorem move_board (b : Board) (p : Piece) (row col : Int) :
    (b.move p row col).1.board =
      gridSet (gridSet b.board p.row p.col (b.board row col)) row col
        (Cell.piece (if row = ROWS - 1 ∨ row = 0 then (p.move row col).make_king
          else p.move row col)) := by
  unfold Board.move
  by_cases hpr : row = ROWS - 1 ∨ row = 0 <;>
    by_cases hc : p.color = PLAYER_COLOR_TOP <;>
      simp [hpr, hc]

theorem move_red_left (b : Board) (p : Piece) (row col : Int) :
    (b.move p row col).1.red_left = b.red_left := by
  unfold Board.move
  by_cases hpr : row = ROWS - 1 ∨ row = 0 <;>
    by_cases hc : p.color = PLAYER_COLOR_TOP <;>
      simp [hpr, hc]

theorem move_white_left (b : Board) (p : Piece) (row col : Int) :
    (b.move p row col).1.white_left = b.white_left := by
  unfold Board.move
  by_cases hpr : row = ROWS - 1 ∨ row = 0 <;>
    by_cases hc : p.color = PLAYER_COLOR_TOP <;>
      simp [hpr, hc]

theorem movedPiece_row (p : Piece) (row col : Int) :
    (if row = ROWS - 1 ∨ row = 0 then (p.move row col).make_king
      else p.move row col).row = row := by
  split <;> rfl

theorem movedPiece_col (p : Piece) (row col : Int) :
    (if row = ROWS - 1 ∨ row = 0 then (p.move row col).make_king
      else p.move row col).col = col := by
  split <;> rfl

theorem movedPiece_color (p : Piece) (row col : Int) :
    (if row = ROWS - 1 ∨ row = 0 then (p.move row col).make_king
      else p.move row col).color = p.color := by
  split <;> rfl

theorem invariant_move (b : Board) (p : Piece) (row col : Int)
    (hInv : Invariant b)
    (hr0 : 0 ≤ row) (hr7 : row ≤ 7) (hc0 : 0 ≤ col) (hc7 : col ≤ 7)
    (hp0 : 0 ≤ p.row) (hp7 : p.row ≤ 7) (hq0 : 0 ≤ p.col) (hq7 : p.col ≤ 7)
    (hdst : b.board row col = Cell.empty)
    (hsrc : b.board p.row p.col = Cell.piece p) :
    Invariant (b.move p row col).1 := by
  obtain ⟨hOk, _, hcw, hcr⟩ := hInv
  have hneP : ((row, col) : Int × Int) ≠ (p.row, p.col) := by
    intro e
    have e1 : row = p.row := congrArg Prod.fst e
    have e2 : col = p.col := congrArg Prod.snd e
    rw [e1, e2, hsrc] at hdst
    exact Cell.noConfusion hdst
  have hg1dst : gridSet b.board p.row p.col Cell.empty row col = Cell.empty := by
    unfold gridSet
    rw [if_neg hneP, hdst]
  have hOk' : ∀ r c : Fin 8, cellOk (b.move p row col).1 r c = true := by
    intro r c
    unfold cellOk
    rw [move_board]
    unfold gridSet
    by_cases e1 : (((r.val : Int), (c.val : Int)) : Int × Int) = (row, col)
    · rw [if_pos e1]
      have er : row = (r.val : Int) := (congrArg Prod.fst e1).symm
      have ec : col = (c.val : Int) := (congrArg Prod.snd e1).symm
      apply decide_eq_true
      rw [movedPiece_row, movedPiece_col]
      exact ⟨er, ec⟩
    · rw [if_neg e1]
      by_cases e2 : (((r.val : Int), (c.val : Int)) : Int × Int) = (p.row, p.col)
      · rw [if_pos e2, hdst]
      · rw [if_neg e2]
        exact hOk r c
  refine ⟨hOk', unique_of_cellOk _ hOk', ?_, ?_⟩
  · rw [move_white_left, ← hcw]
    congr 1
    unfold pieceCount
    rw [move_board, hdst]
    have hA := gridCount_set (gridSet b.board p.row p.col Cell.empty) row col
      (Cell.piece (if row = ROWS - 1 ∨ row = 0 then (p.move row col).make_king
        else p.move row col)) PLAYER_COLOR_TOP hr0 hr7 hc0 hc7
    have hB := gridCount_set b.board p.row p.col Cell.empty PLAYER_COLOR_TOP
      hp0 hp7 hq0 hq7
    rw [hg1dst] at hA
    rw [hsrc] at hB
    have ecol : cellColorB (Cell.piece (if row = ROWS - 1 ∨ row = 0 then
        (p.move row col).make_king else p.move row col)) PLAYER_COLOR_TOP
        = cellColorB (Cell.piece p) PLAYER_COLOR_TOP := by
      show decide ((if row = ROWS - 1 ∨ row = 0 then (p.move row col).make_king
          else p.move row col).color = PLAYER_COLOR_TOP)
        = decide (p.color = PLAYER_COLOR_TOP)
      rw [movedPiece_color]
    rw [ecol] at hA
    rw [cellColorB_empty] at hA hB
    cases hb : cellColorB (Cell.piece p) PLAYER_COLOR_TOP <;>
      rw [hb] at hA hB <;> simp at hA hB <;> omega
  · rw [move_red_left, ← hcr]
    congr 1
    unfold pieceCount
    rw [move_board, hdst]
    have hA := gridCount_set (gridSet b.board p.row p.col Cell.empty) row col
      (Cell.piece (if row = ROWS - 1 ∨ row = 0 then (p.move row col).make_king
        else p.move row col)) PLAYER_COLOR_BOTTOM hr0 hr7 hc0 hc7
    have hB := gridCount_set b.board p.row p.col Cell.empty PLAYER_COLOR_BOTTOM
      hp0 hp7 hq0 hq7
    rw [hg1dst] at hA
    rw [hsrc] at hB
    have ecol : cellColorB (Cell.piece (if row = ROWS - 1 ∨ row = 0 then
        (p.move row col).make_king else p.move row col)) PLAYER_COLOR_BOTTOM
        = cellColorB (Cell.piece p) PLAYER_COLOR_BOTTOM := by
      show decide ((if row = ROWS - 1 ∨ row = 0 then (p.move row col).make_king
          else p.move row col).color = PLAYER_COLOR_BOTTOM)
        = decide (p.color = PLAYER_COLOR_BOTTOM)
      rw [movedPiece_color]
    rw [ecol] at hA
    rw [cellColorB_empty] at hA hB
    cases hb : cellColorB (Cell.piece p) PLAYER_COLOR_BOTTOM <;>
      rw [hb] at hA hB <;> simp at hA hB <;> omega

theorem invariant_removeOne (b : Board) (p : Piece) (hInv : Invariant b)
    (hp0 : 0 ≤ p.row) (hp7 : p.row ≤ 7) (hq0 : 0 ≤ p.col) (hq7 : p.col ≤ 7)
    (hlive : b.board p.row p.col = Cell.piece p) :
    Invariant (removeOne b p) := by
  obtain ⟨hOk, _, hcw, hcr⟩ := hInv
  unfold pieceCount at hcw hcr
  have hOk' : ∀ r c : Fin 8, cellOk (removeOne b p) r c = true := by
    intro r c
    unfold cellOk
    rw [removeOne_board]
    unfold gridSet
    by_cases e1 : (((r.val : Int), (c.val : Int)) : Int × Int) = (p.row, p.col)
    · rw [if_pos e1]
    · rw [if_neg e1]
      exact hOk r c
  have hCt := gridCount_set b.board p.row p.col Cell.empty PLAYER_COLOR_TOP hp0 hp7 hq0 hq7
  have hCb := gridCount_set b.board p.row p.col Cell.empty PLAYER_COLOR_BOTTOM hp0 hp7 hq0 hq7
  rw [hlive, cellColorB_empty, cellColorB_piece] at hCt hCb
  refine ⟨hOk', unique_of_cellOk _ hOk', ?_, ?_⟩
  · rw [removeOne_white]
    unfold pieceCount
    rw [removeOne_board]
    by_cases hc : p.color = PLAYER_COLOR_BOTTOM
    · rw [if_pos hc]
      rw [hc] at hCt
      rw [show decide (PLAYER_COLOR_BOTTOM = PLAYER_COLOR_TOP) = false from by decide] at hCt
      simp at hCt
      omega
    · rw [if_neg hc]
      have hd : decide (p.color = PLAYER_COLOR_TOP) = true := by
        cases hcol : p.color
        · decide
        · exact absurd hcol hc
      rw [hd] at hCt
      simp at hCt
      omega
  · rw [removeOne_red]
    unfold pieceCount
    rw [removeOne_board]
    by_cases hc : p.color = PLAYER_COLOR_BOTTOM
    · rw [if_pos hc]
      rw [hc] at hCb
      rw [show decide (PLAYER_COLOR_BOTTOM = PLAYER_COLOR_BOTTOM) = true from by decide] at hCb
      simp at hCb
      omega
    · rw [if_neg hc]
      have hd : decide (p.color = PLAYER_COLOR_BOTTOM) = false := decide_eq_false hc
      rw [hd] at hCb
      simp at hCb
      omega

theorem invariant_remove :
    ∀ (pieces : List Piece) (b : Board), Invariant b → pieces.Nodup →
      (∀ p ∈ pieces, 0 ≤ p.row ∧ p.row ≤ 7 ∧ 0 ≤ p.col ∧ p.col ≤ 7 ∧
        b.board p.row p.col = Cell.piece p) →
      Invariant (b.remove pieces) := by
  intro pieces
  induction pieces with
  | nil => intro b h _ _; exact h
  | cons p t ih =>
    intro b hInv hnd hlive
    have hp := hlive p (List.mem_cons_self _ _)
    have h1 := invariant_removeOne b p hInv hp.1 hp.2.1 hp.2.2.1 hp.2.2.2.1 hp.2.2.2.2
    rw [List.nodup_cons] at hnd
    show Invariant ((removeOne b p).remove t)
    apply ih (removeOne b p) h1 hnd.2
    intro q hq
    have hqb := hlive q (List.mem_cons_of_mem _ hq)
    refine ⟨hqb.1, hqb.2.1, hqb.2.2.1, hqb.2.2.2.1, ?_⟩
    rw [removeOne_board]
    unfold gridSet
    rw [if_neg ?_]
    · exact hqb.2.2.2.2
    · intro e
      have e1 : q.row = p.row := congrArg Prod.fst e
      have e2 : q.col = p.col := congrArg Prod.snd e
      have ecell : Cell.piece p = Cell.piece q := by
        rw [← hp.2.2.2.2, ← hqb.2.2.2.2, e1, e2]
      have : p = q := Cell.piece.inj ecell
      exact hnd.1 (this ▸ hq)

/-- C8: the representation invariant — every live piece's stored coordinates
match its grid cell, each occupied cell holds exactly one piece, and each color's
grid census equals its live counter — holds after construction and is preserved
by `move` onto an empty in-window destination of a piece live at its recorded
cell, and by `remove` of distinct pieces live at their recorded cells. -/
theorem claimC8 :
    Invariant initialBoard ∧
    (∀ (b : Board) (p : Piece) (row col : Int),
      Invariant b → 0 ≤ row → row ≤ 7 → 0 ≤ col → col ≤ 7 →
      0 ≤ p.row → p.row ≤ 7 → 0 ≤ p.col → p.col ≤ 7 →
      b.board row col = Cell.empty → b.board p.row p.col = Cell.piece p →
      Invariant (b.move p row col).1) ∧
    (∀ (b : Board) (pieces : List Piece),
      Invariant b → pieces.Nodup →
      (∀ p ∈ pieces, 0 ≤ p.row ∧ p.row ≤ 7 ∧ 0 ≤ p.col ∧ p.col ≤ 7 ∧
        b.board p.row p.col = Cell.piece p) →
      Invariant (b.remove pieces)) :=
  ⟨invariant_initial,
    fun b p row col hInv h1 h2 h3 h4 h5 h6 h7 h8 h9 h10 =>
      invariant_move b p row col hInv h1 h2 h3 h4 h5 h6 h7 h8 h9 h10,
    fun b pieces h1 h2 h3 => invariant_remove pieces b h1 h2 h3⟩

theorem claimC8_witness :
    Invariant ((initialBoard.move ⟨5, 0, Color.bottom, false⟩ 4 1).1) ∧
    Invariant (initialBoard.remove [⟨5, 0, Color.bottom, false⟩]) :=
  ⟨claimC8.2.1 initialBoard ⟨5, 0, Color.bottom, false⟩ 4 1 claimC8.1
      (by decide) (by decide) (by decide) (by decide) (by decide) (by decide)
      (by decide) (by decide) (by decide) (by decide),
    claimC8.2.2 initialBoard [⟨5, 0, Color.bottom, false⟩] claimC8.1
      (by decide) (by decide)⟩

/-! ### Claim C9 -/

/-- C9: the newly constructed board has exactly 12 live pieces of each color on
the grid (top color on rows 0–2, bottom on rows 5–7, only on cells with
`col % 2 = (row+1) % 2`, everything else empty), both king counters 0, both
live counters 12, no winner, and evaluation 0. -/
theorem claimC9 :
    pieceCount initialBoard PLAYER_COLOR_TOP = 12 ∧
    pieceCount initialBoard PLAYER_COLOR_BOTTOM = 12 ∧
    initialBoard.white_left = 12 ∧ initialBoard.red_left = 12 ∧
    initialBoard.white_kings = 0 ∧ initialBoard.red_kings = 0 ∧
    initialBoard.winner = none ∧
    initialBoard.evaluate = 0 ∧
    (∀ r c : Fin 8,
      ((c.val : Int) % 2 = ((r.val : Int) + 1) % 2 →
        (r.val < 3 →
          initialBoard.board (r.val : Int) (c.val : Int)
            = Cell.piece ⟨(r.val : Int), (c.val : Int), PLAYER_COLOR_TOP, false⟩) ∧
        (4 < r.val →
          initialBoard.board (r.val : Int) (c.val : Int)
            = Cell.piece ⟨(r.val : Int), (c.val : Int), PLAYER_COLOR_BOTTOM, false⟩) ∧
        (3 ≤ r.val → r.val ≤ 4 →
          initialBoard.board (r.val : Int) (c.val : Int) = Cell.empty)) ∧
      (¬ (c.val : Int) % 2 = ((r.val : Int) + 1) % 2 →
        initialBoard.board (r.val : Int) (c.val : Int) = Cell.empty)) := by
  refine ⟨by decide, by decide, rfl, rfl, rfl, rfl, by decide, ?_, by decide⟩
  norm_num [Board.evaluate, initialBoard]

end Checkers
